import Mathlib

/-!
Verification of the OCR core of monster-hunter-wilds-utils.

The development shallowly embeds the functions of `src/src/lib/ocr.ts`,
`src/src/lib/skills.ts` (shipped here as `src/unnamed/part_008`) and
`src/src/components/ocr/OcrCapture.tsx`. JavaScript strings are modelled as
`List Char` (code points; every string handled by the program lies in the BMP,
where code points and UTF-16 units coincide), JavaScript numbers as exact
rationals `ℚ`, and the host string builtins (`normalize("NFKC")`,
`toLowerCase`, regex character classes) as executable functions whose
character tables are restricted to the finite repertoire exercised here,
following the Unicode Character Database for those characters.
-/

set_option maxRecDepth 20000

namespace Mhwu

/-- JavaScript strings, modelled as lists of Unicode scalar values. -/
abbrev Str := List Char

/-- Model of the JavaScript regex class `\s` (ECMA-262 WhiteSpace and
LineTerminator): space, tab, LF, VT, FF, CR, NBSP, Ogham space mark,
U+2000..U+200A, LS, PS, NNBSP, MMSP, ideographic space and BOM. -/
def jsWhitespace (c : Char) : Bool :=
  c == ' ' || c == '\t' || c == '\n' ||
  c.toNat == 0x0b || c.toNat == 0x0c || c.toNat == 0x0d ||
  c.toNat == 0xa0 || c.toNat == 0x1680 ||
  (0x2000 ≤ c.toNat && c.toNat ≤ 0x200a) ||
  c.toNat == 0x2028 || c.toNat == 0x2029 || c.toNat == 0x202f ||
  c.toNat == 0x205f || c.toNat == 0x3000 || c.toNat == 0xfeff

/-- Model of `String.prototype.toLowerCase` restricted to the ASCII range
(identity on every character appearing in the vocabulary and in the inputs
used below; the UCD lowercase map is the identity on CJK characters). -/
def jsLowerChar (c : Char) : Char :=
  if 65 ≤ c.toNat ∧ c.toNat ≤ 90 then Char.ofNat (c.toNat + 32) else c

/-- Compatibility decomposition step of NFKC (from the UCD), restricted to
the finite character repertoire exercised in this development: full-width
question mark and ideographic space; identity elsewhere. -/
def nfkcDecompChar (c : Char) : List Char :=
  if c = Char.ofNat 0xff1f then ['?']
  else if c = Char.ofNat 0x3000 then [' ']
  else [c]

/-- Canonical composition pairs of NFC (from the UCD), restricted to the
pairs relevant here: a Latin vowel followed by U+0301 COMBINING ACUTE ACCENT
composes to the precomposed accented letter. -/
def nfcComposePair (a b : Char) : Option Char :=
  if a = 'e' ∧ b = Char.ofNat 0x301 then some (Char.ofNat 0xe9)
  else if a = 'a' ∧ b = Char.ofNat 0x301 then some (Char.ofNat 0xe1)
  else none

/-- Canonical composition pass of NFC over a starter followed by the rest of
the text: compose an adjacent pair whenever the table offers a composite. -/
def nfcComposeAux : Char → Str → Str
  | a, [] => [a]
  | a, b :: rest =>
    match nfcComposePair a b with
    | some c => nfcComposeAux c rest
    | none => a :: nfcComposeAux b rest

/-- Canonical composition pass of NFC. -/
def nfcCompose : Str → Str
  | [] => []
  | a :: rest => nfcComposeAux a rest

/-- Model of `String.prototype.normalize("NFKC")`: compatibility
decomposition followed by canonical composition. -/
def jsNfkc (s : Str) : Str := nfcCompose (s.flatMap nfkcDecompChar)

/-- Character class of `NORMALIZE_PATTERN` in `src/src/lib/ocr.ts` lines 3-4:
whitespace, ASCII quotes and curly quotes, backtick, the listed ASCII
punctuation, and the listed CJK punctuation and bracket variants. -/
def normalizeStripChar (c : Char) : Bool :=
  jsWhitespace c ||
  c == Char.ofNat 34 || c == Char.ofNat 39 ||
  c == Char.ofNat 0x201c || c == Char.ofNat 0x201d ||
  c == Char.ofNat 0x2018 || c == Char.ofNat 0x2019 ||
  c == Char.ofNat 96 || c == '~' || c == '!' || c == '@' || c == '#' ||
  c == '$' || c == '%' || c == '^' || c == '&' || c == '*' ||
  c == '(' || c == ')' || c == '_' || c == '+' || c == '-' || c == '=' ||
  c == '[' || c == ']' || c == Char.ofNat 0x7b || c == Char.ofNat 0x7d ||
  c == '|' || c == '\\' || c == ':' || c == ';' || c == ',' || c == '.' ||
  c == '/' || c == '?' || c == '<' || c == '>' ||
  c == Char.ofNat 0x3001 || c == Char.ofNat 0x3002 || c == Char.ofNat 0x30fb ||
  c == Char.ofNat 0x300c || c == Char.ofNat 0x300d ||
  c == Char.ofNat 0x300e || c == Char.ofNat 0x300f ||
  c == Char.ofNat 0xff08 || c == Char.ofNat 0xff09 ||
  c == Char.ofNat 0x3010 || c == Char.ofNat 0x3011 ||
  c == Char.ofNat 0xff3b || c == Char.ofNat 0xff3d ||
  c == Char.ofNat 0xff5b || c == Char.ofNat 0xff5d

/-- Embedding of `normalizeOcrText` (`src/src/lib/ocr.ts` lines 63-64):
`value.normalize("NFKC").toLowerCase().replace(NORMALIZE_PATTERN, "")`. -/
def normalizeOcrText (s : Str) : Str :=
  ((jsNfkc s).map jsLowerChar).filter (fun c => !normalizeStripChar c)

/-- Model of `String.prototype.includes`: contiguous-substring containment. -/
def jsIncludes (haystack needle : Str) : Bool :=
  match haystack with
  | [] => needle.isEmpty
  | _ :: t => needle.isPrefixOf haystack || jsIncludes t needle

/-! Wait-token detector (`src/src/components/ocr/OcrCapture.tsx` 49-53, 67-88). -/

/-- The literal `AUTO_WAIT_TOKEN` constant. -/
def AUTO_WAIT_TOKEN : Str := "????? ?????".data

/-- Embedding of `normalizeAutoToken`: `value.replace(/\s+/g, "")`. -/
def normalizeAutoToken (s : Str) : Str := s.filter (fun c => !jsWhitespace c)

/-- Placeholder-like characters of the detector: ASCII and full-width
question marks and the digit 2. -/
def isPlaceholderChar (c : Char) : Bool :=
  c == '?' || c == Char.ofNat 0xff1f || c == '2'

/-- Model of testing `/[?？2]{2,}/`: some two adjacent placeholder-like
characters occur. -/
def hasPlaceholderRun : Str → Bool
  | [] => false
  | [_] => false
  | a :: b :: rest => (isPlaceholderChar a && isPlaceholderChar b) || hasPlaceholderRun (b :: rest)

/-- Embedding of `isAutoWaitText` (`OcrCapture.tsx` lines 69-88). The
floating-point comparison `placeholderRatio >= 0.3` is modelled exactly as
`3 * length ≤ 10 * count`; for the string lengths a JS engine can represent,
the double-precision comparison agrees with the exact rational one. -/
def isAutoWaitText (value : Str) : Bool :=
  let normalizedToken := normalizeAutoToken AUTO_WAIT_TOKEN
  let normalizedText := normalizeAutoToken value
  if normalizedToken ≠ [] ∧ jsIncludes normalizedText normalizedToken = true then true
  else
    let compact := normalizeAutoToken value
    if compact = [] then false
    else
      let placeholderCount := (compact.filter isPlaceholderChar).length
      if placeholderCount < 2 then false
      else if compact.length ≤ 8 ∧ hasPlaceholderRun compact = true then true
      else if hasPlaceholderRun compact = true then
        decide (3 * compact.length ≤ 10 * placeholderCount)
      else decide (3 * compact.length ≤ 10 * placeholderCount)

/-- The waiting condition as the claim states it: the compacted text contains
the compacted wait token, or the placeholder count is at least 2 and either
the short-text run rule fires or the placeholder share is at least 3/10. -/
def autoWaitSpec (value : Str) : Prop :=
  jsIncludes (normalizeAutoToken value) (normalizeAutoToken AUTO_WAIT_TOKEN) = true ∨
  (2 ≤ ((normalizeAutoToken value).filter isPlaceholderChar).length ∧
    (((normalizeAutoToken value).length ≤ 8 ∧ hasPlaceholderRun (normalizeAutoToken value) = true) ∨
      3 * (normalizeAutoToken value).length ≤
        10 * ((normalizeAutoToken value).filter isPlaceholderChar).length))

/-- A filtered list is no longer than the list. -/
theorem filter_length_le (p : Char → Bool) (l : Str) : (l.filter p).length ≤ l.length :=
  List.length_filter_le p l

/-- C4: `isAutoWaitText` returns true exactly under the claimed condition:
token containment, or placeholder count at least 2 and (short text with a
run, or placeholder share at least 0.3, the share test applied identically
with or without a run); in particular the literal wait token is waiting and
the clean skill text is not. -/
theorem c4_isAutoWaitText_characterization :
    (∀ s : Str, isAutoWaitText s = true ↔ autoWaitSpec s) ∧
    isAutoWaitText "????? ?????".data = true ∧
    isAutoWaitText "鎧竜の守護".data = false := by
  refine ⟨fun s => ?_, by decide, by decide⟩
  have htok : (normalizeAutoToken AUTO_WAIT_TOKEN) ≠ [] := by decide
  unfold isAutoWaitText autoWaitSpec
  by_cases h1 : jsIncludes (normalizeAutoToken s) (normalizeAutoToken AUTO_WAIT_TOKEN) = true
  · simp [h1, htok]
  · have hcnt := filter_length_le isPlaceholderChar (normalizeAutoToken s)
    by_cases h2 : normalizeAutoToken s = []
    · simp [h1, htok, h2]
    · by_cases h3 : ((normalizeAutoToken s).filter isPlaceholderChar).length < 2
      · simp [h1, htok, h2, h3]
        try omega
      · by_cases h4 : (normalizeAutoToken s).length ≤ 8 ∧ hasPlaceholderRun (normalizeAutoToken s) = true
        · simp [h1, htok, h2, h3, h4]
          try omega
        · by_cases h5 : hasPlaceholderRun (normalizeAutoToken s) = true
          · simp [h1, htok, h2, h3, h4, h5]
            try omega
          · simp [h1, htok, h2, h3, h4, h5]
            try omega

/-- C8 counterexample: the normalizer is not idempotent. Stripping the full
stop out of `"e.́"` makes the combining acute adjacent to the `e`, so a
second normalization pass composes them into U+00E9. -/
theorem c8_normalize_not_idempotent_counterexample :
    normalizeOcrText (normalizeOcrText ['e', '.', Char.ofNat 0x301]) ≠
      normalizeOcrText ['e', '.', Char.ofNat 0x301] := by
  decide

/-- The ASCII lowercase map is idempotent. -/
theorem jsLowerChar_idem (c : Char) : jsLowerChar (jsLowerChar c) = jsLowerChar c := by
  unfold jsLowerChar
  by_cases h : 65 ≤ c.toNat ∧ c.toNat ≤ 90
  · rw [if_pos h]
    have hvalid : (c.toNat + 32).isValidChar := Or.inl (by omega)
    have heq : Char.ofNat (c.toNat + 32) = Char.ofNatAux (c.toNat + 32) hvalid :=
      dif_pos hvalid
    have htn : (Char.ofNat (c.toNat + 32)).toNat = c.toNat + 32 := by
      rw [heq]
      rfl
    rw [htn]
    rw [if_neg (by omega)]
  · rw [if_neg h, if_neg h]

/-- C8 (amended): the normalizer is pure and total with the empty string
normalizing to the empty string, and it is idempotent on every input whose
normalized form is NFKC-stable (left unchanged by renormalization). -/
theorem c8_normalize_conditional_idempotence :
    normalizeOcrText [] = [] ∧
    ∀ s : Str, jsNfkc (normalizeOcrText s) = normalizeOcrText s →
      normalizeOcrText (normalizeOcrText s) = normalizeOcrText s := by
  constructor
  · rfl
  · intro s h
    set t := normalizeOcrText s with ht
    have ht2 : t = ((jsNfkc s).map jsLowerChar).filter (fun c => !normalizeStripChar c) :=
      ht.trans rfl
    show ((jsNfkc t).map jsLowerChar).filter (fun c => !normalizeStripChar c) = t
    rw [h]
    have hlower : ∀ c ∈ t, jsLowerChar c = c := by
      intro c hc
      rw [ht2] at hc
      have hc2 := (List.mem_filter.mp hc).1
      obtain ⟨d, _, rfl⟩ := List.mem_map.mp hc2
      exact jsLowerChar_idem d
    have hfilter : ∀ c ∈ t, (!normalizeStripChar c) = true := by
      intro c hc
      rw [ht2] at hc
      exact (List.mem_filter.mp hc).2
    have hmap : t.map jsLowerChar = t := by
      calc t.map jsLowerChar
          = t.map id := List.map_congr_left hlower
        _ = t := List.map_id _
    rw [hmap]
    exact List.filter_eq_self.mpr hfilter

/-- C8 witness: a concrete NFKC-stable input on which idempotence applies. -/
theorem c8_normalize_conditional_idempotence_witness :
    normalizeOcrText (normalizeOcrText "Ab c".data) = normalizeOcrText "Ab c".data :=
  c8_normalize_conditional_idempotence.2 "Ab c".data (by decide)

/-! Geometry mapper (`src/src/components/ocr/OcrCapture.tsx` 64-65, 130-176)
and frame capturer dimensions (`OcrCapture.tsx` 331-353). JavaScript numbers
are modelled as exact rationals. -/

/-- Embedding of `clamp` (`OcrCapture.tsx` lines 64-65). -/
def ratClamp (value mn mx : ℚ) : ℚ := min (max value mn) mx

/-- Model of `Math.round`: round half toward positive infinity. -/
def jsRound (q : ℚ) : ℤ := ⌊q + 1 / 2⌋

/-- The normalized on-screen selection rectangle. -/
structure NormalizedRoi where
  x : ℚ
  y : ℚ
  width : ℚ
  height : ℚ
deriving DecidableEq

/-- The source-pixel crop returned by the geometry mapper. -/
structure PixelCrop where
  sx : ℤ
  sy : ℤ
  sw : ℤ
  sh : ℤ
deriving DecidableEq

/-- Embedding of `resolveRoiInVideo` (`OcrCapture.tsx` lines 130-176). -/
def resolveRoiInVideo (roi : NormalizedRoi) (rectWidth rectHeight videoWidth videoHeight : ℚ) :
    PixelCrop :=
  let displayWidth := rectWidth
  let displayHeight := rectHeight
  let videoAspect := videoWidth / videoHeight
  let displayAspect := displayWidth / displayHeight
  let drawnWidth := if displayAspect < videoAspect then displayWidth else displayHeight * videoAspect
  let drawnHeight := if displayAspect < videoAspect then displayWidth / videoAspect else displayHeight
  let offsetX := if displayAspect < videoAspect then 0 else (displayWidth - drawnWidth) / 2
  let offsetY := if displayAspect < videoAspect then (displayHeight - drawnHeight) / 2 else 0
  let roiDisplayX := roi.x * displayWidth - offsetX
  let roiDisplayY := roi.y * displayHeight - offsetY
  let roiDisplayW := roi.width * displayWidth
  let roiDisplayH := roi.height * displayHeight
  let clampedX := ratClamp roiDisplayX 0 drawnWidth
  let clampedY := ratClamp roiDisplayY 0 drawnHeight
  let clampedWidth := ratClamp roiDisplayW 0 (drawnWidth - clampedX)
  let clampedHeight := ratClamp roiDisplayH 0 (drawnHeight - clampedY)
  let scaleX := videoWidth / drawnWidth
  let scaleY := videoHeight / drawnHeight
  { sx := jsRound (clampedX * scaleX)
    sy := jsRound (clampedY * scaleY)
    sw := max 1 (jsRound (clampedWidth * scaleX))
    sh := max 1 (jsRound (clampedHeight * scaleY)) }

/-- A rounded nonnegative quantity is nonnegative. -/
theorem jsRound_nonneg {q : ℚ} (h : 0 ≤ q) : 0 ≤ jsRound q := by
  unfold jsRound
  have h2 : (0 : ℚ) ≤ q + 1 / 2 := by linarith
  exact Int.le_floor.mpr (by exact_mod_cast h2)

/-- Rounding exceeds its argument by at most one half. -/
theorem jsRound_le (q : ℚ) : (jsRound q : ℚ) ≤ q + 1 / 2 := Int.floor_le _

/-- Evaluation rule for `jsRound` at a concrete rational. -/
theorem jsRound_eq {q : ℚ} {n : ℤ} (h1 : (n : ℚ) ≤ q + 1 / 2) (h2 : q + 1 / 2 < n + 1) :
    jsRound q = n := Int.floor_eq_iff.mpr ⟨h1, by exact_mod_cast h2⟩

/-- Clamping into a nonempty interval lands in the interval. -/
theorem ratClamp_mem {v mn mx : ℚ} (h : mn ≤ mx) :
    mn ≤ ratClamp v mn mx ∧ ratClamp v mn mx ≤ mx := by
  unfold ratClamp
  exact ⟨le_min (le_max_right v mn) h, min_le_right _ _⟩

/-- Bound for one rounded axis: with `a` the scaled clamped offset and `b`
the scaled clamped extent, the rounded offset is nonnegative and offset plus
extent stays within the video dimension plus one. -/
theorem crop_axis_round_bound {a b : ℚ} {n : ℤ} (ha : 0 ≤ a) (hb : 0 ≤ b)
    (han : a ≤ (n : ℚ)) (hab : a + b ≤ (n : ℚ)) :
    0 ≤ jsRound a ∧ jsRound a + max 1 (jsRound b) ≤ n + 1 ∧
      (1 : ℤ) ≤ max 1 (jsRound b) := by
  refine ⟨jsRound_nonneg ha, ?_, le_max_left _ _⟩
  by_cases hrb : 1 ≤ jsRound b
  · rw [max_eq_right hrb]
    have h1 : (jsRound a : ℚ) + (jsRound b : ℚ) ≤ (n : ℚ) + 1 := by
      have ga := jsRound_le a
      have gb := jsRound_le b
      linarith
    exact_mod_cast h1
  · push_neg at hrb
    rw [max_eq_left (by omega)]
    have h1 : jsRound a ≤ n := by
      unfold jsRound
      have hq : a + 1 / 2 ≤ (n : ℚ) + 1 / 2 := by linarith
      calc ⌊a + 1 / 2⌋ ≤ ⌊(n : ℚ) + 1 / 2⌋ := Int.floor_le_floor hq
        _ = ⌊(1 : ℚ) / 2 + (n : ℚ)⌋ := by rw [add_comm]
        _ = ⌊(1 : ℚ) / 2⌋ + n := Int.floor_add_int _ _
        _ = n := by norm_num
    omega

/-- Full bound for one axis of `resolveRoiInVideo`, in terms of the drawn
extent `dW` of that axis and the video dimension `n`. -/
theorem crop_axis_bound (rv rw dW : ℚ) (n : ℤ) (hdW : 0 < dW) (hn : 0 < n) :
    0 ≤ jsRound (ratClamp rv 0 dW * ((n : ℚ) / dW)) ∧
    jsRound (ratClamp rv 0 dW * ((n : ℚ) / dW)) +
      max 1 (jsRound (ratClamp rw 0 (dW - ratClamp rv 0 dW) * ((n : ℚ) / dW))) ≤ n + 1 ∧
    (1 : ℤ) ≤ max 1 (jsRound (ratClamp rw 0 (dW - ratClamp rv 0 dW) * ((n : ℚ) / dW))) := by
  have hnq : (0 : ℚ) < (n : ℚ) := by exact_mod_cast hn
  have hs : (0 : ℚ) < (n : ℚ) / dW := div_pos hnq hdW
  have hclX := ratClamp_mem (v := rv) (le_of_lt hdW)
  have hclW := ratClamp_mem (v := rw) (sub_nonneg.mpr hclX.2)
  have hcancel : dW * ((n : ℚ) / dW) = (n : ℚ) := by
    rw [mul_comm]
    exact div_mul_cancel₀ _ (ne_of_gt hdW)
  refine crop_axis_round_bound (mul_nonneg hclX.1 (le_of_lt hs))
    (mul_nonneg hclW.1 (le_of_lt hs)) ?_ ?_
  · calc ratClamp rv 0 dW * ((n : ℚ) / dW)
        ≤ dW * ((n : ℚ) / dW) := mul_le_mul_of_nonneg_right hclX.2 (le_of_lt hs)
      _ = (n : ℚ) := hcancel
  · have hsum : ratClamp rv 0 dW + ratClamp rw 0 (dW - ratClamp rv 0 dW) ≤ dW := by
      have := hclW.2
      linarith
    calc ratClamp rv 0 dW * ((n : ℚ) / dW) +
          ratClamp rw 0 (dW - ratClamp rv 0 dW) * ((n : ℚ) / dW)
        = (ratClamp rv 0 dW + ratClamp rw 0 (dW - ratClamp rv 0 dW)) * ((n : ℚ) / dW) := by
          ring
      _ ≤ dW * ((n : ℚ) / dW) := mul_le_mul_of_nonneg_right hsum (le_of_lt hs)
      _ = (n : ℚ) := hcancel

/-- Concrete evaluation: the counterexample crop. -/
theorem resolveRoi_counterexample_eval :
    resolveRoiInVideo ⟨1 / 4, 0, 3 / 4, 1 / 2⟩ 2 2 2 2 = ⟨1, 0, 2, 1⟩ := by
  unfold resolveRoiInVideo
  norm_num [ratClamp, min_def, max_def]
  refine ⟨?_, ?_, ?_, ?_⟩
  · apply jsRound_eq <;> norm_num
  · rw [show jsRound ((0 : ℚ)) = 0 from by apply jsRound_eq <;> norm_num]
  · rw [show jsRound ((3 : ℚ) / 2) = 2 from by apply jsRound_eq <;> norm_num]
    norm_num
  · rw [show jsRound ((1 : ℚ)) = 1 from by apply jsRound_eq <;> norm_num]
    norm_num

/-- C1 counterexample: with the selection `{x: 1/4, y: 0, width: 3/4,
height: 1/2}` fully inside the unit square, a 2-by-2 container and a 2-by-2
video, half-up rounding yields `sx = 1` and `sw = 2`, so `sx + sw = 3`
exceeds the video width 2. -/
theorem c1_resolveRoi_out_of_bounds_counterexample :
    (resolveRoiInVideo ⟨1 / 4, 0, 3 / 4, 1 / 2⟩ 2 2 2 2).sx +
      (resolveRoiInVideo ⟨1 / 4, 0, 3 / 4, 1 / 2⟩ 2 2 2 2).sw = 3 := by
  rw [resolveRoi_counterexample_eval]
  rfl

/-- C1 (amended): for every normalized region inside the unit square, every
positive container rectangle and positive integer video dimensions, the crop
satisfies `0 ≤ sx`, `0 ≤ sy`, `1 ≤ sw`, `1 ≤ sh`, `sx + sw ≤ videoWidth + 1`
and `sy + sh ≤ videoHeight + 1`; the claimed bounds without the `+ 1` fail by
the rounding counterexample. -/
theorem c1_resolveRoi_bounds (roi : NormalizedRoi) (rectW rectH : ℚ) (vw vh : ℤ)
    (hx0 : 0 ≤ roi.x) (hx1 : roi.x ≤ 1) (hy0 : 0 ≤ roi.y) (hy1 : roi.y ≤ 1)
    (hw0 : 0 ≤ roi.width) (hw1 : roi.width ≤ 1) (hh0 : 0 ≤ roi.height) (hh1 : roi.height ≤ 1)
    (hrw : 0 < rectW) (hrh : 0 < rectH) (hvw : 0 < vw) (hvh : 0 < vh) :
    0 ≤ (resolveRoiInVideo roi rectW rectH (vw : ℚ) (vh : ℚ)).sx ∧
    0 ≤ (resolveRoiInVideo roi rectW rectH (vw : ℚ) (vh : ℚ)).sy ∧
    1 ≤ (resolveRoiInVideo roi rectW rectH (vw : ℚ) (vh : ℚ)).sw ∧
    1 ≤ (resolveRoiInVideo roi rectW rectH (vw : ℚ) (vh : ℚ)).sh ∧
    (resolveRoiInVideo roi rectW rectH (vw : ℚ) (vh : ℚ)).sx +
      (resolveRoiInVideo roi rectW rectH (vw : ℚ) (vh : ℚ)).sw ≤ vw + 1 ∧
    (resolveRoiInVideo roi rectW rectH (vw : ℚ) (vh : ℚ)).sy +
      (resolveRoiInVideo roi rectW rectH (vw : ℚ) (vh : ℚ)).sh ≤ vh + 1 := by
  have hvwq : (0 : ℚ) < (vw : ℚ) := by exact_mod_cast hvw
  have hvhq : (0 : ℚ) < (vh : ℚ) := by exact_mod_cast hvh
  have hvApos : (0 : ℚ) < (vw : ℚ) / (vh : ℚ) := div_pos hvwq hvhq
  unfold resolveRoiInVideo
  by_cases hbr : rectW / rectH < (vw : ℚ) / (vh : ℚ)
  · simp only [if_pos hbr]
    have hax := crop_axis_bound (roi.x * rectW - 0) (roi.width * rectW) rectW vw hrw hvw
    have hay := crop_axis_bound
      (roi.y * rectH - (rectH - rectW / ((vw : ℚ) / (vh : ℚ))) / 2)
      (roi.height * rectH) (rectW / ((vw : ℚ) / (vh : ℚ))) vh (div_pos hrw hvApos) hvh
    exact ⟨hax.1, hay.1, hax.2.2, hay.2.2, hax.2.1, hay.2.1⟩
  · simp only [if_neg hbr]
    have hdW : (0 : ℚ) < rectH * ((vw : ℚ) / (vh : ℚ)) := mul_pos hrh hvApos
    have hax := crop_axis_bound
      (roi.x * rectW - (rectW - rectH * ((vw : ℚ) / (vh : ℚ))) / 2)
      (roi.width * rectW) (rectH * ((vw : ℚ) / (vh : ℚ))) vw hdW hvw
    have hay := crop_axis_bound (roi.y * rectH - 0) (roi.height * rectH) rectH vh hrh hvh
    exact ⟨hax.1, hay.1, hax.2.2, hay.2.2, hax.2.1, hay.2.1⟩

/-- C1 witness: the bounds at the end-to-end scenario of the specification
(region x 0.1, y 0.1, width 0.3, height 0.2 over a 1280x720 video in a
640x480 container). -/
theorem c1_resolveRoi_bounds_witness :
    0 ≤ (resolveRoiInVideo ⟨1 / 10, 1 / 10, 3 / 10, 1 / 5⟩ 640 480 (1280 : ℚ) (720 : ℚ)).sx ∧
    0 ≤ (resolveRoiInVideo ⟨1 / 10, 1 / 10, 3 / 10, 1 / 5⟩ 640 480 (1280 : ℚ) (720 : ℚ)).sy ∧
    1 ≤ (resolveRoiInVideo ⟨1 / 10, 1 / 10, 3 / 10, 1 / 5⟩ 640 480 (1280 : ℚ) (720 : ℚ)).sw ∧
    1 ≤ (resolveRoiInVideo ⟨1 / 10, 1 / 10, 3 / 10, 1 / 5⟩ 640 480 (1280 : ℚ) (720 : ℚ)).sh ∧
    (resolveRoiInVideo ⟨1 / 10, 1 / 10, 3 / 10, 1 / 5⟩ 640 480 (1280 : ℚ) (720 : ℚ)).sx +
      (resolveRoiInVideo ⟨1 / 10, 1 / 10, 3 / 10, 1 / 5⟩ 640 480 (1280 : ℚ) (720 : ℚ)).sw ≤
        1280 + 1 ∧
    (resolveRoiInVideo ⟨1 / 10, 1 / 10, 3 / 10, 1 / 5⟩ 640 480 (1280 : ℚ) (720 : ℚ)).sy +
      (resolveRoiInVideo ⟨1 / 10, 1 / 10, 3 / 10, 1 / 5⟩ 640 480 (1280 : ℚ) (720 : ℚ)).sh ≤
        720 + 1 :=
  c1_resolveRoi_bounds ⟨1 / 10, 1 / 10, 3 / 10, 1 / 5⟩ 640 480 1280 720
    (by norm_num) (by norm_num) (by norm_num) (by norm_num) (by norm_num) (by norm_num)
    (by norm_num) (by norm_num) (by norm_num) (by norm_num) (by norm_num) (by norm_num)

/-! Frame capturer (`OcrCapture.tsx` lines 331-353). The embedding models the
dimensions of the produced canvas; obtaining a 2d context from a freshly
created canvas is assumed to succeed (the `!context` branch is the host
running out of resources, not program logic). -/

/-- The `MAX_CAPTURE_WIDTH` constant (`OcrCapture.tsx` line 46). -/
def MAX_CAPTURE_WIDTH : ℤ := 720

/-- Embedding of `captureCanvas` (`OcrCapture.tsx` lines 331-353): `none`
models the early `return null` (missing selection, or a video without
intrinsic dimensions — `!video.videoWidth || !video.videoHeight`); otherwise
the result is the `(canvas.width, canvas.height)` pair. -/
def captureCanvas (roi : Option NormalizedRoi) (rectWidth rectHeight : ℚ)
    (videoWidth videoHeight : ℤ) : Option (ℤ × ℤ) :=
  match roi with
  | none => none
  | some r =>
    if videoWidth = 0 ∨ videoHeight = 0 then none
    else
      let crop := resolveRoiInVideo r rectWidth rectHeight (videoWidth : ℚ) (videoHeight : ℚ)
      let targetWidth := min MAX_CAPTURE_WIDTH crop.sw
      let targetHeight :=
        max 1 (jsRound ((crop.sh : ℚ) * ((targetWidth : ℚ) / (crop.sw : ℚ))))
      some (targetWidth, targetHeight)

/-- C9 counterexample: a degenerate zero-area selection does not make
`captureCanvas` return `null`; the geometry mapper clamps the crop to 1x1
and a 1x1 canvas is produced. -/
theorem c9_captureCanvas_degenerate_counterexample :
    captureCanvas (some ⟨1 / 2, 1 / 2, 0, 0⟩) 2 2 2 2 = some (1, 1) := by
  have h0 : jsRound (0 : ℚ) = 0 := by apply jsRound_eq <;> norm_num
  have h1 : jsRound (1 : ℚ) = 1 := by apply jsRound_eq <;> norm_num
  have heval : resolveRoiInVideo ⟨1 / 2, 1 / 2, 0, 0⟩ 2 2 2 2 = ⟨1, 1, 1, 1⟩ := by
    unfold resolveRoiInVideo
    norm_num [ratClamp, min_def, max_def, h0, h1]
  simp only [captureCanvas]
  norm_num [MAX_CAPTURE_WIDTH, min_def, max_def, heval, h1]

/-- C9 (amended): `captureCanvas` returns `null` exactly when there is no
selection or the video has no intrinsic dimensions; a degenerate zero-area
selection still produces a canvas (of the minimal 1x1 crop). Any produced
canvas has width `min 720 sw`, hence between 1 and the 720 cap, and height
`max 1 (round (sh * width / sw))`, hence at least 1, derived from the crop
by preserving its aspect. -/
theorem c9_captureCanvas_null_and_bounds (rectW rectH : ℚ) (vw vh : ℤ) :
    (captureCanvas none rectW rectH vw vh = none) ∧
    (∀ r : NormalizedRoi, vw = 0 ∨ vh = 0 → captureCanvas (some r) rectW rectH vw vh = none) ∧
    (∀ r : NormalizedRoi, vw ≠ 0 → vh ≠ 0 →
      captureCanvas (some r) rectW rectH vw vh ≠ none) ∧
    (∀ (r : NormalizedRoi) (w h : ℤ),
      captureCanvas (some r) rectW rectH vw vh = some (w, h) →
      w = min MAX_CAPTURE_WIDTH (resolveRoiInVideo r rectW rectH (vw : ℚ) (vh : ℚ)).sw ∧
      h = max 1 (jsRound
        (((resolveRoiInVideo r rectW rectH (vw : ℚ) (vh : ℚ)).sh : ℚ) *
          ((w : ℚ) / ((resolveRoiInVideo r rectW rectH (vw : ℚ) (vh : ℚ)).sw : ℚ)))) ∧
      1 ≤ w ∧ w ≤ 720 ∧ 1 ≤ h) := by
  refine ⟨rfl, ?_, ?_, ?_⟩
  · intro r hz
    simp only [captureCanvas]
    rw [if_pos hz]
  · intro r hvw hvh
    simp only [captureCanvas]
    rw [if_neg (by tauto)]
    exact Option.some_ne_none _
  · intro r w h hsome
    simp only [captureCanvas] at hsome
    by_cases hz : vw = 0 ∨ vh = 0
    · rw [if_pos hz] at hsome
      exact absurd hsome (by simp)
    · rw [if_neg hz] at hsome
      simp only [Option.some.injEq, Prod.mk.injEq] at hsome
      obtain ⟨hw, hh⟩ := hsome
      have hsw : 1 ≤ (resolveRoiInVideo r rectW rectH (vw : ℚ) (vh : ℚ)).sw :=
        le_max_left _ _
      refine ⟨hw.symm, ?_, ?_, ?_, ?_⟩
      · rw [← hh, ← hw]
      · rw [← hw]
        exact le_min (by unfold MAX_CAPTURE_WIDTH; omega) hsw
      · rw [← hw]
        exact le_trans (min_le_left _ _) (by unfold MAX_CAPTURE_WIDTH; omega)
      · rw [← hh]
        exact le_max_left _ _

/-- C9 witness: the spec end-to-end scenario region produces a 384x192
canvas, within the cap. -/
theorem c9_captureCanvas_null_and_bounds_witness :
    (384 : ℤ) = min MAX_CAPTURE_WIDTH
      (resolveRoiInVideo ⟨1 / 10, 1 / 10, 3 / 10, 1 / 5⟩ 640 480 (1280 : ℚ) (720 : ℚ)).sw ∧
    (192 : ℤ) = max 1 (jsRound
      (((resolveRoiInVideo ⟨1 / 10, 1 / 10, 3 / 10, 1 / 5⟩ 640 480 (1280 : ℚ) (720 : ℚ)).sh : ℚ) *
        (((384 : ℤ) : ℚ) /
          ((resolveRoiInVideo ⟨1 / 10, 1 / 10, 3 / 10, 1 / 5⟩ 640 480 (1280 : ℚ) (720 : ℚ)).sw : ℚ)))) ∧
    (1 : ℤ) ≤ 384 ∧ (384 : ℤ) ≤ 720 ∧ (1 : ℤ) ≤ 192 :=
  (c9_captureCanvas_null_and_bounds 640 480 1280 720).2.2.2
    ⟨1 / 10, 1 / 10, 3 / 10, 1 / 5⟩ 384 192
    (by
      have h0 : jsRound (0 : ℚ) = 0 := by apply jsRound_eq <;> norm_num
      have h128 : jsRound (128 : ℚ) = 128 := by apply jsRound_eq <;> norm_num
      have h384 : jsRound (384 : ℚ) = 384 := by apply jsRound_eq <;> norm_num
      have h192 : jsRound (192 : ℚ) = 192 := by apply jsRound_eq <;> norm_num
      have heval : resolveRoiInVideo ⟨1 / 10, 1 / 10, 3 / 10, 1 / 5⟩ 640 480
          (1280 : ℚ) (720 : ℚ) = ⟨128, 0, 384, 192⟩ := by
        unfold resolveRoiInVideo
        norm_num [ratClamp, min_def, max_def, h0, h128, h384, h192]
      simp only [captureCanvas]
      norm_num [MAX_CAPTURE_WIDTH, min_def, max_def, heval, h192])

/-! Preprocessor (`src/src/lib/ocr.ts` lines 199-386). Images are modelled as
the flat RGBA byte array of `ImageData` (`ImageData.data` always has length a
multiple of 4). For the single-path property about `binarizeOnCpu` the float
arithmetic of the luma formula is modelled exactly over `ℚ` (`lumaQ`); for
the comparison between the CPU path and the GPU kernel, where the difference
between f64 and f32 arithmetic is itself at stake, both arithmetics are
modelled faithfully as correctly rounded rational operations (`flRound`
below). -/

/-- The luma expression `0.299 * r + 0.587 * g + 0.114 * b` of both paths. -/
def lumaQ (r g b : ℕ) : ℚ :=
  (299 : ℚ) / 1000 * r + (587 : ℚ) / 1000 * g + (114 : ℚ) / 1000 * b

/-- Embedding of the pixel loop of `binarizeOnCpu` (`ocr.ts` lines 199-216):
for each RGBA quadruple, write 255 into R, G and B when `luma >= threshold`,
else 0, and keep A. -/
def binarizeData (t : ℚ) : List ℕ → List ℕ
  | r :: g :: b :: a :: rest =>
    let value : ℕ := if t ≤ lumaQ r g b then 255 else 0
    value :: value :: value :: a :: binarizeData t rest
  | other => other

/-- An RGBA pixel. -/
structure Rgba where
  r : ℕ
  g : ℕ
  b : ℕ
  a : ℕ
deriving DecidableEq

/-- Flatten pixels into the `ImageData.data` byte layout. -/
def rgbaFlatten (ps : List Rgba) : List ℕ :=
  ps.flatMap (fun p => [p.r, p.g, p.b, p.a])

/-- The per-pixel transform as the specification words it: pure white when
the luma weighting meets the threshold, else pure black, alpha untouched. -/
def binarizePixelSpec (t : ℚ) (p : Rgba) : Rgba :=
  if t ≤ lumaQ p.r p.g p.b then ⟨255, 255, 255, p.a⟩ else ⟨0, 0, 0, p.a⟩

/-- C7: the CPU loop binarizes pixelwise by the luma rule keeping alpha, and
an all-white image at threshold 160 stays all-white. -/
theorem c7_binarizeOnCpu_pixelwise :
    (∀ (t : ℚ) (ps : List Rgba),
      binarizeData t (rgbaFlatten ps) = rgbaFlatten (ps.map (binarizePixelSpec t))) ∧
    (∀ n : ℕ,
      binarizeData 160 (rgbaFlatten (List.replicate n ⟨255, 255, 255, 255⟩)) =
        rgbaFlatten (List.replicate n ⟨255, 255, 255, 255⟩)) := by
  have hmain : ∀ (t : ℚ) (ps : List Rgba),
      binarizeData t (rgbaFlatten ps) = rgbaFlatten (ps.map (binarizePixelSpec t)) := by
    intro t ps
    induction ps with
    | nil => rfl
    | cons p rest ih =>
      simp only [rgbaFlatten, List.flatMap_cons, List.map_cons, List.cons_append,
        List.nil_append] at *
      simp only [binarizeData, binarizePixelSpec]
      by_cases h : t ≤ lumaQ p.r p.g p.b
      · simp only [if_pos h, ih]
      · simp only [if_neg h, ih]
  refine ⟨hmain, fun n => ?_⟩
  rw [hmain]
  have hwhite : binarizePixelSpec 160 ⟨255, 255, 255, 255⟩ = ⟨255, 255, 255, 255⟩ := by
    unfold binarizePixelSpec lumaQ
    rw [if_pos (by norm_num)]
  rw [List.map_replicate, hwhite]

/-- Truncation of a JS number toward zero (ECMA-262 ToIntegerOrInfinity). -/
def jsTrunc (q : ℚ) : ℤ := if 0 ≤ q then ⌊q⌋ else ⌈q⌉

/-- Model of storing a JS number into a `Uint32Array` slot (ECMA-262
ToUint32): truncate toward zero, then reduce modulo 2^32. -/
def jsToUint32 (q : ℚ) : ℕ := ((jsTrunc q) % (2 ^ 32 : ℤ)).toNat

/-- Round a rational to the nearest integer, ties to even (the IEEE 754
roundTiesToEven direction used by both f64 and f32 arithmetic). -/
def roundNearestEven (x : ℚ) : ℤ :=
  if x - ⌊x⌋ < 1 / 2 then ⌊x⌋
  else if 1 / 2 < x - ⌊x⌋ then ⌊x⌋ + 1
  else if ⌊x⌋ % 2 = 0 then ⌊x⌋ else ⌊x⌋ + 1

/-- Correct rounding of a real (rational) value to a binary floating-point
number with `p` significant bits (`p = 53` for f64, `p = 24` for f32),
round-to-nearest ties-to-even. The exponent is unbounded: every quantity in
the luma computation lies far inside the normal range of f32 and f64, so
overflow and subnormals never arise. -/
def flRound (p : ℕ) (q : ℚ) : ℚ :=
  if q = 0 then 0
  else if 0 < q then
    (roundNearestEven (q / 2 ^ (Int.log 2 q - p + 1)) : ℚ) * 2 ^ (Int.log 2 q - p + 1)
  else
    -((roundNearestEven (-q / 2 ^ (Int.log 2 (-q) - p + 1)) : ℚ) * 2 ^ (Int.log 2 (-q) - p + 1))

theorem two_zpow_neg (k : ℕ) : (2 : ℚ) ^ (-(k : ℤ)) = 1 / 2 ^ k := by
  rw [zpow_neg, zpow_natCast, one_div]

theorem roundNearestEven_of_lt {x : ℚ} {m : ℤ} (h1 : (m : ℚ) - 1 / 2 < x)
    (h2 : x < (m : ℚ) + 1 / 2) : roundNearestEven x = m := by
  rcases le_or_lt (m : ℚ) x with hge | hlt
  · have hfl : ⌊x⌋ = m := Int.floor_eq_iff.mpr ⟨hge, by linarith⟩
    unfold roundNearestEven
    rw [hfl, if_pos (by linarith)]
  · have hfl : ⌊x⌋ = m - 1 := Int.floor_eq_iff.mpr ⟨by push_cast; linarith, by push_cast; linarith⟩
    unfold roundNearestEven
    rw [hfl]
    rw [if_neg (by push_cast; linarith), if_pos (by push_cast; linarith)]
    omega

theorem roundNearestEven_tie_even {m : ℤ} (h : m % 2 = 0) :
    roundNearestEven ((m : ℚ) + 1 / 2) = m := by
  have hfl : ⌊(m : ℚ) + 1 / 2⌋ = m := by
    rw [add_comm, Int.floor_add_int]
    norm_num
  unfold roundNearestEven
  rw [hfl, show (m : ℚ) + 1 / 2 - (m : ℤ) = 1 / 2 from by ring]
  rw [if_neg (by norm_num), if_neg (by norm_num), if_pos h]

theorem roundNearestEven_tie_odd {m : ℤ} (h : m % 2 = 1) :
    roundNearestEven ((m : ℚ) + 1 / 2) = m + 1 := by
  have hfl : ⌊(m : ℚ) + 1 / 2⌋ = m := by
    rw [add_comm, Int.floor_add_int]
    norm_num
  unfold roundNearestEven
  rw [hfl, show (m : ℚ) + 1 / 2 - (m : ℤ) = 1 / 2 from by ring]
  rw [if_neg (by norm_num), if_neg (by norm_num), if_neg (by omega)]

/-- Certificate evaluator for `flRound`: to compute `flRound p q` for a
positive `q`, exhibit the binade `2^e ≤ q < 2^(e+1)`, the ulp `u = 2^(e-p+1)`
and the rounded mantissa `m`. -/
theorem flRound_eval (p : ℕ) (q u : ℚ) (e m : ℤ) (hq : 0 < q)
    (he1 : (2 : ℚ) ^ e ≤ q) (he2 : q < (2 : ℚ) ^ (e + 1))
    (hu : (2 : ℚ) ^ (e - p + 1) = u)
    (hm : roundNearestEven (q / u) = m) :
    flRound p q = m * u := by
  have hlog : Int.log 2 q = e := by
    have hh1 : e ≤ Int.log 2 q :=
      (Int.zpow_le_iff_le_log one_lt_two hq).mp (by exact_mod_cast he1)
    have hh2 : Int.log 2 q < e + 1 :=
      (Int.lt_zpow_iff_log_lt one_lt_two hq).mp (by exact_mod_cast he2)
    omega
  unfold flRound
  rw [if_neg hq.ne', if_pos hq, hlog, hu, hm]

theorem fl_c64_299 : flRound 53 ((299 : ℚ) / 1000) = (5386305154335113 : ℚ) / 18014398509481984 :=
  (flRound_eval 53 ((299 : ℚ) / 1000) (1 / 2 ^ 54) (-2 : ℤ) 5386305154335113
    (by norm_num) (by norm_num) (by norm_num)
    (by rw [show ((-2 : ℤ) - (53 : ℕ) + 1) = -((54 : ℕ) : ℤ) from by norm_num, two_zpow_neg])
    (roundNearestEven_of_lt (by norm_num) (by norm_num))).trans (by norm_num)

theorem fl_c64_587 : flRound 53 ((587 : ℚ) / 1000) = (2643612981266481 : ℚ) / 4503599627370496 :=
  (flRound_eval 53 ((587 : ℚ) / 1000) (1 / 2 ^ 53) (-1 : ℤ) 5287225962532962
    (by norm_num) (by norm_num) (by norm_num)
    (by rw [show ((-1 : ℤ) - (53 : ℕ) + 1) = -((53 : ℕ) : ℤ) from by norm_num, two_zpow_neg])
    (roundNearestEven_of_lt (by norm_num) (by norm_num))).trans (by norm_num)

theorem fl_c64_114 : flRound 53 ((114 : ℚ) / 1000) = (8214565720323785 : ℚ) / 72057594037927936 :=
  (flRound_eval 53 ((114 : ℚ) / 1000) (1 / 2 ^ 56) (-4 : ℤ) 8214565720323785
    (by norm_num) (by norm_num) (by norm_num)
    (by rw [show ((-4 : ℤ) - (53 : ℕ) + 1) = -((56 : ℕ) : ℤ) from by norm_num, two_zpow_neg])
    (roundNearestEven_of_lt (by norm_num) (by norm_num))).trans (by norm_num)

theorem fl_c32_299 : flRound 24 ((5386305154335113 : ℚ) / 18014398509481984) = (10032775 : ℚ) / 33554432 :=
  (flRound_eval 24 ((5386305154335113 : ℚ) / 18014398509481984) (1 / 2 ^ 25) (-2 : ℤ) 10032775
    (by norm_num) (by norm_num) (by norm_num)
    (by rw [show ((-2 : ℤ) - (24 : ℕ) + 1) = -((25 : ℕ) : ℤ) from by norm_num, two_zpow_neg])
    (roundNearestEven_of_lt (by norm_num) (by norm_num))).trans (by norm_num)

theorem fl_c32_587 : flRound 24 ((2643612981266481 : ℚ) / 4503599627370496) = (4924113 : ℚ) / 8388608 :=
  (flRound_eval 24 ((2643612981266481 : ℚ) / 4503599627370496) (1 / 2 ^ 24) (-1 : ℤ) 9848226
    (by norm_num) (by norm_num) (by norm_num)
    (by rw [show ((-1 : ℤ) - (24 : ℕ) + 1) = -((24 : ℕ) : ℤ) from by norm_num, two_zpow_neg])
    (roundNearestEven_of_lt (by norm_num) (by norm_num))).trans (by norm_num)

theorem fl_c32_114 : flRound 24 ((8214565720323785 : ℚ) / 72057594037927936) = (15300821 : ℚ) / 134217728 :=
  (flRound_eval 24 ((8214565720323785 : ℚ) / 72057594037927936) (1 / 2 ^ 27) (-4 : ℤ) 15300821
    (by norm_num) (by norm_num) (by norm_num)
    (by rw [show ((-4 : ℤ) - (24 : ℕ) + 1) = -((27 : ℕ) : ℤ) from by norm_num, two_zpow_neg])
    (roundNearestEven_of_lt (by norm_num) (by norm_num))).trans (by norm_num)

theorem fl_A64_p1 : flRound 53 ((5386305154335113 : ℚ) / 18014398509481984 * ((3 : ℕ) : ℚ)) = (4039728865751335 : ℚ) / 4503599627370496 :=
  (flRound_eval 53 ((5386305154335113 : ℚ) / 18014398509481984 * ((3 : ℕ) : ℚ)) (1 / 2 ^ 53) (-1 : ℤ) 8079457731502670
    (by norm_num) (by norm_num) (by norm_num)
    (by rw [show ((-1 : ℤ) - (53 : ℕ) + 1) = -((53 : ℕ) : ℤ) from by norm_num, two_zpow_neg])
    (by
      rw [show ((5386305154335113 : ℚ) / 18014398509481984 * ((3 : ℕ) : ℚ)) / (1 / 2 ^ 53) = ((8079457731502669 : ℤ) : ℚ) + 1 / 2 from by norm_num,
        roundNearestEven_tie_odd (by decide)]
      norm_num)).trans (by norm_num)

theorem fl_A64_p2 : flRound 53 ((2643612981266481 : ℚ) / 4503599627370496 * ((239 : ℕ) : ℚ)) = (4936121113458507 : ℚ) / 35184372088832 :=
  (flRound_eval 53 ((2643612981266481 : ℚ) / 4503599627370496 * ((239 : ℕ) : ℚ)) (1 / 2 ^ 45) (7 : ℤ) 4936121113458507
    (by norm_num) (by norm_num) (by norm_num)
    (by rw [show ((7 : ℤ) - (53 : ℕ) + 1) = -((45 : ℕ) : ℤ) from by norm_num, two_zpow_neg])
    (roundNearestEven_of_lt (by norm_num) (by norm_num))).trans (by norm_num)

theorem fl_A64_p3 : flRound 53 ((8214565720323785 : ℚ) / 72057594037927936 * ((165 : ℕ) : ℚ)) = (330909019495465 : ℚ) / 17592186044416 :=
  (flRound_eval 53 ((8214565720323785 : ℚ) / 72057594037927936 * ((165 : ℕ) : ℚ)) (1 / 2 ^ 48) (4 : ℤ) 5294544311927440
    (by norm_num) (by norm_num) (by norm_num)
    (by rw [show ((4 : ℤ) - (53 : ℕ) + 1) = -((48 : ℕ) : ℤ) from by norm_num, two_zpow_neg])
    (roundNearestEven_of_lt (by norm_num) (by norm_num))).trans (by norm_num)

theorem fl_A64_s1 : flRound 53 ((4039728865751335 : ℚ) / 4503599627370496 + (4936121113458507 : ℚ) / 35184372088832) = (4967681495222189 : ℚ) / 35184372088832 :=
  (flRound_eval 53 ((4039728865751335 : ℚ) / 4503599627370496 + (4936121113458507 : ℚ) / 35184372088832) (1 / 2 ^ 45) (7 : ℤ) 4967681495222189
    (by norm_num) (by norm_num) (by norm_num)
    (by rw [show ((7 : ℤ) - (53 : ℕ) + 1) = -((45 : ℕ) : ℤ) from by norm_num, two_zpow_neg])
    (roundNearestEven_of_lt (by norm_num) (by norm_num))).trans (by norm_num)

theorem fl_A64_s2 : flRound 53 ((4967681495222189 : ℚ) / 35184372088832 + (330909019495465 : ℚ) / 17592186044416) = (5629499534213119 : ℚ) / 35184372088832 :=
  (flRound_eval 53 ((4967681495222189 : ℚ) / 35184372088832 + (330909019495465 : ℚ) / 17592186044416) (1 / 2 ^ 45) (7 : ℤ) 5629499534213119
    (by norm_num) (by norm_num) (by norm_num)
    (by rw [show ((7 : ℤ) - (53 : ℕ) + 1) = -((45 : ℕ) : ℤ) from by norm_num, two_zpow_neg])
    (roundNearestEven_of_lt (by norm_num) (by norm_num))).trans (by norm_num)

theorem fl_A32_p1 : flRound 24 ((10032775 : ℚ) / 33554432 * ((3 : ℕ) : ℚ)) = (7524581 : ℚ) / 8388608 :=
  (flRound_eval 24 ((10032775 : ℚ) / 33554432 * ((3 : ℕ) : ℚ)) (1 / 2 ^ 24) (-1 : ℤ) 15049162
    (by norm_num) (by norm_num) (by norm_num)
    (by rw [show ((-1 : ℤ) - (24 : ℕ) + 1) = -((24 : ℕ) : ℤ) from by norm_num, two_zpow_neg])
    (by
      rw [show ((10032775 : ℚ) / 33554432 * ((3 : ℕ) : ℚ)) / (1 / 2 ^ 24) = ((15049162 : ℤ) : ℚ) + 1 / 2 from by norm_num,
        roundNearestEven_tie_even (by decide)])).trans (by norm_num)

theorem fl_A32_p2 : flRound 24 ((4924113 : ℚ) / 8388608 * ((239 : ℕ) : ℚ)) = (4597121 : ℚ) / 32768 :=
  (flRound_eval 24 ((4924113 : ℚ) / 8388608 * ((239 : ℕ) : ℚ)) (1 / 2 ^ 16) (7 : ℤ) 9194242
    (by norm_num) (by norm_num) (by norm_num)
    (by rw [show ((7 : ℤ) - (24 : ℕ) + 1) = -((16 : ℕ) : ℤ) from by norm_num, two_zpow_neg])
    (roundNearestEven_of_lt (by norm_num) (by norm_num))).trans (by norm_num)

theorem fl_A32_p3 : flRound 24 ((15300821 : ℚ) / 134217728 * ((165 : ℕ) : ℚ)) = (9861857 : ℚ) / 524288 :=
  (flRound_eval 24 ((15300821 : ℚ) / 134217728 * ((165 : ℕ) : ℚ)) (1 / 2 ^ 19) (4 : ℤ) 9861857
    (by norm_num) (by norm_num) (by norm_num)
    (by rw [show ((4 : ℤ) - (24 : ℕ) + 1) = -((19 : ℕ) : ℤ) from by norm_num, two_zpow_neg])
    (roundNearestEven_of_lt (by norm_num) (by norm_num))).trans (by norm_num)

theorem fl_A32_s1 : flRound 24 ((7524581 : ℚ) / 8388608 + (4597121 : ℚ) / 32768) = (2313257 : ℚ) / 16384 :=
  (flRound_eval 24 ((7524581 : ℚ) / 8388608 + (4597121 : ℚ) / 32768) (1 / 2 ^ 16) (7 : ℤ) 9253028
    (by norm_num) (by norm_num) (by norm_num)
    (by rw [show ((7 : ℤ) - (24 : ℕ) + 1) = -((16 : ℕ) : ℤ) from by norm_num, two_zpow_neg])
    (roundNearestEven_of_lt (by norm_num) (by norm_num))).trans (by norm_num)

theorem fl_A32_s2 : flRound 24 ((2313257 : ℚ) / 16384 + (9861857 : ℚ) / 524288) = (160 : ℚ) :=
  (flRound_eval 24 ((2313257 : ℚ) / 16384 + (9861857 : ℚ) / 524288) (1 / 2 ^ 16) (7 : ℤ) 10485760
    (by norm_num) (by norm_num) (by norm_num)
    (by rw [show ((7 : ℤ) - (24 : ℕ) + 1) = -((16 : ℕ) : ℤ) from by norm_num, two_zpow_neg])
    (roundNearestEven_of_lt (by norm_num) (by norm_num))).trans (by norm_num)

theorem fl_B64_p1 : flRound 53 ((5386305154335113 : ℚ) / 18014398509481984 * ((159 : ℕ) : ℚ)) = (836350116737581 : ℚ) / 17592186044416 :=
  (flRound_eval 53 ((5386305154335113 : ℚ) / 18014398509481984 * ((159 : ℕ) : ℚ)) (1 / 2 ^ 47) (5 : ℤ) 6690800933900648
    (by norm_num) (by norm_num) (by norm_num)
    (by rw [show ((5 : ℤ) - (53 : ℕ) + 1) = -((47 : ℕ) : ℤ) from by norm_num, two_zpow_neg])
    (roundNearestEven_of_lt (by norm_num) (by norm_num))).trans (by norm_num)

theorem fl_B64_p2 : flRound 53 ((2643612981266481 : ℚ) / 4503599627370496 * ((159 : ℕ) : ℚ)) = (3283863000166957 : ℚ) / 35184372088832 :=
  (flRound_eval 53 ((2643612981266481 : ℚ) / 4503599627370496 * ((159 : ℕ) : ℚ)) (1 / 2 ^ 46) (6 : ℤ) 6567726000333914
    (by norm_num) (by norm_num) (by norm_num)
    (by rw [show ((6 : ℤ) - (53 : ℕ) + 1) = -((46 : ℕ) : ℤ) from by norm_num, two_zpow_neg])
    (roundNearestEven_of_lt (by norm_num) (by norm_num))).trans (by norm_num)

theorem fl_B64_p3 : flRound 53 ((8214565720323785 : ℚ) / 72057594037927936 * ((159 : ℕ) : ℚ)) = (5102015427857351 : ℚ) / 281474976710656 :=
  (flRound_eval 53 ((8214565720323785 : ℚ) / 72057594037927936 * ((159 : ℕ) : ℚ)) (1 / 2 ^ 48) (4 : ℤ) 5102015427857351
    (by norm_num) (by norm_num) (by norm_num)
    (by rw [show ((4 : ℤ) - (53 : ℕ) + 1) = -((48 : ℕ) : ℤ) from by norm_num, two_zpow_neg])
    (roundNearestEven_of_lt (by norm_num) (by norm_num))).trans (by norm_num)

theorem fl_B64_s1 : flRound 53 ((836350116737581 : ℚ) / 17592186044416 + (3283863000166957 : ℚ) / 35184372088832) = (4956563233642119 : ℚ) / 35184372088832 :=
  (flRound_eval 53 ((836350116737581 : ℚ) / 17592186044416 + (3283863000166957 : ℚ) / 35184372088832) (1 / 2 ^ 45) (7 : ℤ) 4956563233642119
    (by norm_num) (by norm_num) (by norm_num)
    (by rw [show ((7 : ℤ) - (53 : ℕ) + 1) = -((45 : ℕ) : ℤ) from by norm_num, two_zpow_neg])
    (roundNearestEven_of_lt (by norm_num) (by norm_num))).trans (by norm_num)

theorem fl_B64_s2 : flRound 53 ((4956563233642119 : ℚ) / 35184372088832 + (5102015427857351 : ℚ) / 281474976710656) = (159 : ℚ) :=
  (flRound_eval 53 ((4956563233642119 : ℚ) / 35184372088832 + (5102015427857351 : ℚ) / 281474976710656) (1 / 2 ^ 45) (7 : ℤ) 5594315162124288
    (by norm_num) (by norm_num) (by norm_num)
    (by rw [show ((7 : ℤ) - (53 : ℕ) + 1) = -((45 : ℕ) : ℤ) from by norm_num, two_zpow_neg])
    (roundNearestEven_of_lt (by norm_num) (by norm_num))).trans (by norm_num)

theorem fl_B32_p1 : flRound 24 ((10032775 : ℚ) / 33554432 * ((159 : ℕ) : ℚ)) = (3115647 : ℚ) / 65536 :=
  (flRound_eval 24 ((10032775 : ℚ) / 33554432 * ((159 : ℕ) : ℚ)) (1 / 2 ^ 18) (5 : ℤ) 12462588
    (by norm_num) (by norm_num) (by norm_num)
    (by rw [show ((5 : ℤ) - (24 : ℕ) + 1) = -((18 : ℕ) : ℤ) from by norm_num, two_zpow_neg])
    (roundNearestEven_of_lt (by norm_num) (by norm_num))).trans (by norm_num)

theorem fl_B32_p2 : flRound 24 ((4924113 : ℚ) / 8388608 * ((159 : ℕ) : ℚ)) = (12233343 : ℚ) / 131072 :=
  (flRound_eval 24 ((4924113 : ℚ) / 8388608 * ((159 : ℕ) : ℚ)) (1 / 2 ^ 17) (6 : ℤ) 12233343
    (by norm_num) (by norm_num) (by norm_num)
    (by rw [show ((6 : ℤ) - (24 : ℕ) + 1) = -((17 : ℕ) : ℤ) from by norm_num, two_zpow_neg])
    (roundNearestEven_of_lt (by norm_num) (by norm_num))).trans (by norm_num)

theorem fl_B32_p3 : flRound 24 ((15300821 : ℚ) / 134217728 * ((159 : ℕ) : ℚ)) = (2375811 : ℚ) / 131072 :=
  (flRound_eval 24 ((15300821 : ℚ) / 134217728 * ((159 : ℕ) : ℚ)) (1 / 2 ^ 19) (4 : ℤ) 9503244
    (by norm_num) (by norm_num) (by norm_num)
    (by rw [show ((4 : ℤ) - (24 : ℕ) + 1) = -((19 : ℕ) : ℤ) from by norm_num, two_zpow_neg])
    (roundNearestEven_of_lt (by norm_num) (by norm_num))).trans (by norm_num)

theorem fl_B32_s1 : flRound 24 ((3115647 : ℚ) / 65536 + (12233343 : ℚ) / 131072) = (4616159 : ℚ) / 32768 :=
  (flRound_eval 24 ((3115647 : ℚ) / 65536 + (12233343 : ℚ) / 131072) (1 / 2 ^ 16) (7 : ℤ) 9232318
    (by norm_num) (by norm_num) (by norm_num)
    (by rw [show ((7 : ℤ) - (24 : ℕ) + 1) = -((16 : ℕ) : ℤ) from by norm_num, two_zpow_neg])
    (by
      rw [show ((3115647 : ℚ) / 65536 + (12233343 : ℚ) / 131072) / (1 / 2 ^ 16) = ((9232318 : ℤ) : ℚ) + 1 / 2 from by norm_num,
        roundNearestEven_tie_even (by decide)])).trans (by norm_num)

theorem fl_B32_s2 : flRound 24 ((4616159 : ℚ) / 32768 + (2375811 : ℚ) / 131072) = (159 : ℚ) :=
  (flRound_eval 24 ((4616159 : ℚ) / 32768 + (2375811 : ℚ) / 131072) (1 / 2 ^ 16) (7 : ℤ) 10420224
    (by norm_num) (by norm_num) (by norm_num)
    (by rw [show ((7 : ℤ) - (24 : ℕ) + 1) = -((16 : ℕ) : ℤ) from by norm_num, two_zpow_neg])
    (by
      rw [show ((4616159 : ℚ) / 32768 + (2375811 : ℚ) / 131072) / (1 / 2 ^ 16) = ((10420223 : ℤ) : ℚ) + 1 / 2 from by norm_num,
        roundNearestEven_tie_odd (by decide)]
      norm_num)).trans (by norm_num)

theorem fl_T160 : flRound 24 (((160 : ℕ) : ℚ)) = (160 : ℚ) :=
  (flRound_eval 24 (((160 : ℕ) : ℚ)) (1 / 2 ^ 16) (7 : ℤ) 10485760
    (by norm_num) (by norm_num) (by norm_num)
    (by rw [show ((7 : ℤ) - (24 : ℕ) + 1) = -((16 : ℕ) : ℤ) from by norm_num, two_zpow_neg])
    (roundNearestEven_of_lt (by norm_num) (by norm_num))).trans (by norm_num)

theorem fl_T159 : flRound 24 (((159 : ℕ) : ℚ)) = (159 : ℚ) :=
  (flRound_eval 24 (((159 : ℕ) : ℚ)) (1 / 2 ^ 16) (7 : ℤ) 10420224
    (by norm_num) (by norm_num) (by norm_num)
    (by rw [show ((7 : ℤ) - (24 : ℕ) + 1) = -((16 : ℕ) : ℤ) from by norm_num, two_zpow_neg])
    (roundNearestEven_of_lt (by norm_num) (by norm_num))).trans (by norm_num)

/-- The IEEE f64 values of the source literals `0.299`, `0.587`, `0.114`
in `binarizeOnCpu` (`ocr.ts` line 208). -/
def F64_0299 : ℚ := flRound 53 ((299 : ℚ) / 1000)

/-- See `F64_0299`. -/
def F64_0587 : ℚ := flRound 53 ((587 : ℚ) / 1000)

/-- See `F64_0299`. -/
def F64_0114 : ℚ := flRound 53 ((114 : ℚ) / 1000)

/-- The IEEE f32 values of the WGSL literals `0.299`, `0.587`, `0.114`
(`ocr.ts` line 309): the abstract-float (f64) literal converted to f32. -/
def F32_0299 : ℚ := flRound 24 F64_0299

/-- See `F32_0299`. -/
def F32_0587 : ℚ := flRound 24 F64_0587

/-- See `F32_0299`. -/
def F32_0114 : ℚ := flRound 24 F64_0114

/-- IEEE-faithful f64 evaluation of the CPU luma expression
`0.299 * r + 0.587 * g + 0.114 * b` (`ocr.ts` line 208): each product and
each (left-associated) sum is correctly rounded to 53 bits. -/
def f64Luma (r g b : ℕ) : ℚ :=
  flRound 53 (flRound 53 (flRound 53 (F64_0299 * r) + flRound 53 (F64_0587 * g)) +
    flRound 53 (F64_0114 * b))

/-- IEEE-faithful f32 evaluation of the WGSL luma expression
`0.299 * r + 0.587 * g + 0.114 * b` (`ocr.ts` line 309): each product and
each (left-associated) sum is correctly rounded to 24 bits. -/
def f32Luma (r g b : ℕ) : ℚ :=
  flRound 24 (flRound 24 (flRound 24 (F32_0299 * r) + flRound 24 (F32_0587 * g)) +
    flRound 24 (F32_0114 * b))

/-- The pixel loop of `binarizeOnCpu` (`ocr.ts` lines 204-213) with its f64
arithmetic modelled faithfully: white iff `f64Luma >= threshold`. -/
def binarizeDataF64 (t : ℚ) : List ℕ → List ℕ
  | r :: g :: b :: a :: rest =>
    let value : ℕ := if t ≤ f64Luma r g b then 255 else 0
    value :: value :: value :: a :: binarizeDataF64 t rest
  | other => other

/-- The WGSL compute kernel of `binarizeWithWebGpu` (`ocr.ts` lines 289-313)
on the same byte layout, with its f32 arithmetic modelled faithfully: the
kernel reads each pixel as a little-endian u32 (`pixel & 0xFF` is the R
byte), compares the f32 luma against `f32(params.threshold)` where
`params.threshold` went through `new Uint32Array([pixelCount, threshold, 0,
0])` (ECMA-262 ToUint32), and writes back
`(pixel & 0xFF000000) | v<<16 | v<<8 | v`, i.e. bytes `[v, v, v, a]`. -/
def binarizeGpuDataF32 (t : ℚ) : List ℕ → List ℕ
  | r :: g :: b :: a :: rest =>
    let value : ℕ :=
      if flRound 24 ((jsToUint32 t : ℕ) : ℚ) ≤ f32Luma r g b then 255 else 0
    value :: value :: value :: a :: binarizeGpuDataF32 t rest
  | other => other

theorem f64Luma_A : f64Luma 3 239 165 = (5629499534213119 : ℚ) / 35184372088832 := by
  unfold f64Luma F64_0299 F64_0587 F64_0114
  rw [fl_c64_299, fl_c64_587, fl_c64_114, fl_A64_p1, fl_A64_p2, fl_A64_p3, fl_A64_s1, fl_A64_s2]

theorem f32Luma_A : f32Luma 3 239 165 = 160 := by
  unfold f32Luma F32_0299 F32_0587 F32_0114 F64_0299 F64_0587 F64_0114
  rw [fl_c64_299, fl_c64_587, fl_c64_114, fl_c32_299, fl_c32_587, fl_c32_114,
    fl_A32_p1, fl_A32_p2, fl_A32_p3, fl_A32_s1, fl_A32_s2]

theorem f64Luma_B : f64Luma 159 159 159 = 159 := by
  unfold f64Luma F64_0299 F64_0587 F64_0114
  rw [fl_c64_299, fl_c64_587, fl_c64_114, fl_B64_p1, fl_B64_p2, fl_B64_p3, fl_B64_s1, fl_B64_s2]

theorem f32Luma_B : f32Luma 159 159 159 = 159 := by
  unfold f32Luma F32_0299 F32_0587 F32_0114 F64_0299 F64_0587 F64_0114
  rw [fl_c64_299, fl_c64_587, fl_c64_114, fl_c32_299, fl_c32_587, fl_c32_114,
    fl_B32_p1, fl_B32_p2, fl_B32_p3, fl_B32_s1, fl_B32_s2]

theorem jsToUint32_160 : jsToUint32 160 = 160 := by
  unfold jsToUint32 jsTrunc
  rw [if_pos (by norm_num)]
  rw [show (160 : ℚ) = ((160 : ℕ) : ℚ) from by norm_num, Int.floor_natCast]
  decide

theorem jsToUint32_halfthr : jsToUint32 (319 / 2) = 159 := by
  have h1 : jsTrunc (319 / 2) = 159 := by
    unfold jsTrunc
    rw [if_pos (by norm_num)]
    rw [show (319 : ℚ) / 2 = 1 / 2 + (159 : ℤ) from by norm_num, Int.floor_add_int]
    norm_num
  unfold jsToUint32
  rw [h1]
  rfl

/-- C3: the two binarization paths are NOT bit-identical, already at the
integer threshold 160 that `preprocessCanvas` always passes. At the pixel
RGB (3,239,165) the CPU's f64 luma evaluates to
5629499534213119/2^45 = 159.99999999999997... < 160 (pixel goes black),
while the GPU kernel's f32 luma evaluates to exactly 160 (pixel goes
white). A second, independent divergence: at the non-integer threshold
159.5 the `Uint32Array` upload truncates the GPU threshold to 159, so the
gray pixel (159,159,159) (luma exactly 159 on both paths) goes white on the
GPU and black on the CPU. -/
theorem c3_gpu_cpu_kernel_divergence :
    binarizeDataF64 160 [3, 239, 165, 255] = [0, 0, 0, 255] ∧
    binarizeGpuDataF32 160 [3, 239, 165, 255] = [255, 255, 255, 255] ∧
    binarizeDataF64 (319 / 2) [159, 159, 159, 255] = [0, 0, 0, 255] ∧
    binarizeGpuDataF32 (319 / 2) [159, 159, 159, 255] = [255, 255, 255, 255] := by
  refine ⟨?_, ?_, ?_, ?_⟩
  · simp only [binarizeDataF64, f64Luma_A]
    norm_num
  · simp only [binarizeGpuDataF32, jsToUint32_160, fl_T160, f32Luma_A]
    norm_num
  · simp only [binarizeDataF64, f64Luma_B]
    norm_num
  · simp only [binarizeGpuDataF32, jsToUint32_halfthr, fl_T159, f32Luma_B]
    norm_num

/-! Auto-capture state machine (`OcrCapture.tsx` lines 281-287, 355-358 and
360-440). The interval effect is embedded as a transition system: a `tick`
event is the synchronous prefix of the interval callback (the
`autoInFlightRef` guard and the launch of the asynchronous body), a
`complete` event is the resolution of that body with the recognition's
outcome (including the `finally` that clears the in-flight flag), and a
`reset` event is the external reset (auto mode toggled off, lines 281-287,
or the target table changed, lines 355-358; both set the state to waiting,
and the effect teardown clears the in-flight flag). The effect re-subscribes
whenever `autoState` changes, so the body is modelled as reading the current
state. `recogStarted` counts samplings started; `addCount` counts `onAddEntry`
invocations. -/

/-- Outcome of one asynchronous sampling body. -/
inductive AutoOutcome where
  /-- `isAutoWaitText` detected the placeholder (lines 380-389). -/
  | waitText
  /-- both the series and the group match passed `isSkillMatchStrong`
  (lines 390-412). -/
  | strongBoth
  /-- recognition finished without a strong double match. -/
  | noMatch
  /-- the body threw (lines 413-417). -/
  | failed
  /-- the body returned early (`captureCanvas` yielded null, line 369). -/
  | skipped
deriving DecidableEq

/-- Events driving the auto-capture machine. -/
inductive AutoEvent where
  /-- an interval tick fires (lines 363-366). -/
  | tick
  /-- the in-flight body resolves with an outcome (lines 367-420). -/
  | complete (o : AutoOutcome)
  /-- external reset: auto mode toggled off or the table changed. -/
  | reset
deriving DecidableEq

/-- The observable state of the auto-capture loop. -/
structure AutoMachineState where
  /-- `autoState = "locked"`. -/
  locked : Bool
  /-- `autoInFlightRef.current`. -/
  inFlight : Bool
  /-- number of `onAddEntry` invocations so far. -/
  addCount : ℕ
  /-- number of samplings started so far. -/
  recogStarted : ℕ
deriving DecidableEq

/-- One step of the auto-capture machine, from the source: a tick is skipped
entirely while in flight; a completing body applies the wait/lock logic and
always clears the flag; `onAddEntry` runs only on a strong double match in
the waiting state, which also locks. -/
def autoStep (s : AutoMachineState) : AutoEvent → AutoMachineState
  | .tick =>
    if s.inFlight then s
    else { s with inFlight := true, recogStarted := s.recogStarted + 1 }
  | .complete o =>
    if s.inFlight then
      match o with
      | .waitText => { s with locked := false, inFlight := false }
      | .strongBoth =>
        if s.locked then { s with inFlight := false }
        else { s with locked := true, addCount := s.addCount + 1, inFlight := false }
      | .noMatch => { s with inFlight := false }
      | .failed => { s with inFlight := false }
      | .skipped => { s with inFlight := false }
    else s
  | .reset => { s with locked := false, inFlight := false }

/-- Run a list of events. -/
def autoRun (s : AutoMachineState) (es : List AutoEvent) : AutoMachineState :=
  es.foldl autoStep s

/-- Number of waiting-to-locked transitions along a trace. -/
def lockSteps (s : AutoMachineState) : List AutoEvent → ℕ
  | [] => 0
  | e :: es =>
    (if (autoStep s e).locked = true ∧ s.locked = false then 1 else 0) +
      lockSteps (autoStep s e) es

/-- One step changes `addCount` exactly on a waiting-to-locked transition. -/
theorem autoStep_addCount (s : AutoMachineState) (e : AutoEvent) :
    (autoStep s e).addCount =
      s.addCount + (if (autoStep s e).locked = true ∧ s.locked = false then 1 else 0) := by
  cases e with
  | tick =>
    by_cases h : s.inFlight = true
    · simp [autoStep, h]
    · simp only [Bool.not_eq_true] at h
      simp [autoStep, h]
  | reset => simp [autoStep]
  | complete o =>
    by_cases h : s.inFlight = true
    · cases o with
      | waitText => simp [autoStep, h]
      | strongBoth =>
        by_cases hl : s.locked = true
        · simp [autoStep, h, hl]
        · simp only [Bool.not_eq_true] at hl
          simp [autoStep, h, hl]
      | noMatch => simp [autoStep, h]
      | failed => simp [autoStep, h]
      | skipped => simp [autoStep, h]
    · simp only [Bool.not_eq_true] at h
      simp [autoStep, h]

/-- C5 counterexample to the claim as stated: after locking (no external
reset anywhere in the trace), a wait-detected completion returns the machine
to waiting, and the next strong double match invokes the record mutation a
second time: the claimed (no record mutation until the machine is reset
externally) fails. -/
theorem c5_lock_counterexample :
    (autoRun ⟨false, false, 0, 0⟩ [.tick, .complete .strongBoth]).locked = true ∧
    (autoRun ⟨false, false, 0, 0⟩ [.tick, .complete .strongBoth]).addCount = 1 ∧
    (autoRun ⟨false, false, 0, 0⟩
      [.tick, .complete .strongBoth, .tick, .complete .waitText,
        .tick, .complete .strongBoth]).addCount = 2 := by
  refine ⟨rfl, rfl, rfl⟩

/-- C5 (amended): `onAddEntry` is invoked exactly once per waiting-to-locked
transition — along any event trace the mutation count grows by exactly the
number of such transitions — and while the state is locked a tick, a failure,
a no-match completion or a further strong double match neither mutates the
record nor leaves the locked state; the state leaves locked only through a
reset (external: auto off or table change) or through a wait-detected
completion. -/
theorem c5_lock_once (s : AutoMachineState) (es : List AutoEvent) (e : AutoEvent) :
    ((autoRun s es).addCount = s.addCount + lockSteps s es) ∧
    (s.locked = true → e ≠ .reset → e ≠ .complete .waitText →
      (autoStep s e).locked = true ∧ (autoStep s e).addCount = s.addCount) := by
  constructor
  · induction es generalizing s with
    | nil => simp [autoRun, lockSteps]
    | cons e' es' ih =>
      show (autoRun (autoStep s e') es').addCount = _
      rw [ih (autoStep s e')]
      show _ = s.addCount +
        ((if (autoStep s e').locked = true ∧ s.locked = false then 1 else 0) +
          lockSteps (autoStep s e') es')
      rw [autoStep_addCount s e']
      ring
  · intro hl hne hnw
    cases e with
    | tick =>
      by_cases h : s.inFlight = true
      · simp [autoStep, h, hl]
      · simp only [Bool.not_eq_true] at h
        simp [autoStep, h, hl]
    | reset => exact absurd rfl hne
    | complete o =>
      by_cases h : s.inFlight = true
      · cases o with
        | waitText => exact absurd rfl hnw
        | strongBoth => simp [autoStep, h, hl]
        | noMatch => simp [autoStep, h, hl]
        | failed => simp [autoStep, h, hl]
        | skipped => simp [autoStep, h, hl]
      · simp only [Bool.not_eq_true] at h
        simp [autoStep, h, hl]

/-- C5 witness: a locked machine ignores a further strong double match, and
the counting identity at a concrete trace. -/
theorem c5_lock_once_witness :
    ((autoRun ⟨true, false, 3, 7⟩ [.tick, .complete .strongBoth]).addCount =
      (⟨true, false, 3, 7⟩ : AutoMachineState).addCount +
        lockSteps ⟨true, false, 3, 7⟩ [.tick, .complete .strongBoth]) ∧
    ((autoStep ⟨true, false, 3, 7⟩ (.complete .strongBoth)).locked = true ∧
      (autoStep ⟨true, false, 3, 7⟩ (.complete .strongBoth)).addCount = 3) := by
  constructor
  · exact (c5_lock_once ⟨true, false, 3, 7⟩ [.tick, .complete .strongBoth]
      (.complete .strongBoth)).1
  · have h := (c5_lock_once ⟨true, false, 3, 7⟩ [] (.complete .strongBoth)).2
      rfl (by simp) (by simp)
    exact h

/-- C6: the auto-capture loop is single-flight: a tick that fires while a
sampling is in flight changes nothing at all; from an idle machine two
consecutive ticks start exactly one sampling (the second is a no-op because
the first set the flag); and every completion path — success, no match,
wait, failure or skip — clears the in-flight flag, as does an external
reset. -/
theorem c6_single_flight (s : AutoMachineState) (o : AutoOutcome) :
    (s.inFlight = true → autoStep s .tick = s) ∧
    (s.inFlight = false →
      (autoRun s [.tick, .tick]).recogStarted = s.recogStarted + 1 ∧
      (autoRun s [.tick, .tick]).inFlight = true) ∧
    ((autoStep s (.complete o)).inFlight = false) ∧
    ((autoStep s .reset).inFlight = false) := by
  refine ⟨?_, ?_, ?_, ?_⟩
  · intro h
    simp [autoStep, h]
  · intro h
    constructor
    · show (autoStep (autoStep s .tick) .tick).recogStarted = _
      simp [autoStep, h]
    · show (autoStep (autoStep s .tick) .tick).inFlight = true
      simp [autoStep, h]
  · by_cases h : s.inFlight = true
    · cases o with
      | waitText => simp [autoStep, h]
      | strongBoth =>
        by_cases hl : s.locked = true
        · simp [autoStep, h, hl]
        · simp only [Bool.not_eq_true] at hl
          simp [autoStep, h, hl]
      | noMatch => simp [autoStep, h]
      | failed => simp [autoStep, h]
      | skipped => simp [autoStep, h]
    · simp only [Bool.not_eq_true] at h
      simp [autoStep, h]
  · simp [autoStep]

/-- C6 witness: the single-flight facts at a concrete in-flight state and a
concrete idle state. -/
theorem c6_single_flight_witness :
    (autoStep ⟨false, true, 0, 5⟩ .tick = ⟨false, true, 0, 5⟩) ∧
    ((autoRun ⟨false, false, 0, 5⟩ [.tick, .tick]).recogStarted = 6 ∧
      (autoRun ⟨false, false, 0, 5⟩ [.tick, .tick]).inFlight = true) ∧
    ((autoStep ⟨false, true, 0, 5⟩ (.complete .strongBoth)).inFlight = false) := by
  refine ⟨?_, ?_, ?_⟩
  · exact (c6_single_flight ⟨false, true, 0, 5⟩ .strongBoth).1 rfl
  · exact (c6_single_flight ⟨false, false, 0, 5⟩ .strongBoth).2.1 rfl
  · exact (c6_single_flight ⟨false, true, 0, 5⟩ .strongBoth).2.2.1

/-! Skill vocabulary (`src/src/lib/skills.ts`, shipped as
`src/unnamed/part_008`) and the tiered matcher
(`src/src/lib/ocr.ts` lines 20-197). -/

/-- The `UNKNOWN_SKILL_LABEL` sentinel (`part_008` line 30). -/
def UNKNOWN_SKILL_LABEL : Str := "不明".data

/-- The `HIDDEN_SKILL_LABEL` constant (`part_008` line 31). -/
def HIDDEN_SKILL_LABEL : Str := "非表示スキル".data

/-- The `SKILL_EN_LABELS` table (`part_008` lines 85-130). -/
def SKILL_EN_LABELS : List (Str × Str) := [
  (UNKNOWN_SKILL_LABEL, "Unknown".data),
  (HIDDEN_SKILL_LABEL, "Hidden Skill".data),
  ("鱗張りの技法".data, "Scale Plating Technique".data),
  ("革細工の柔性".data, "Leathercraft Flexibility".data),
  ("毛皮の昂揚".data, "Fur Exaltation".data),
  ("甲虫の知らせ".data, "Insect Tidings".data),
  ("護竜の脈動".data, "Guardian Dragon Pulse".data),
  ("ヌシの誇り".data, "Apex Pride".data),
  ("甲虫の擬態".data, "Insect Mimicry".data),
  ("革細工の滑性".data, "Leathercraft Smoothness".data),
  ("鱗重ねの工夫".data, "Layered Scale Craft".data),
  ("毛皮の誘惑".data, "Fur Temptation".data),
  ("護竜の守り".data, "Guardian Dragon Guard".data),
  ("ヌシの憤激".data, "Apex Fury".data),
  ("先達の導き".data, "Pioneer's Guidance".data),
  ("栄光の誉れ".data, "Glorious Honor".data),
  ("祝祭の巡り".data, "Festival Cycle".data),
  ("ヌシの魂".data, "Apex Soul".data),
  ("拳を極めし者".data, "Fist Master".data),
  ("闢獣の力".data, "Power of the Cleaving Beast".data),
  ("火竜の力".data, "Power of the Fire Wyvern".data),
  ("兇爪竜の力".data, "Power of the Savage Claw Wyvern".data),
  ("護鎖刃竜の命脈".data, "Lifeblood of the Guarded Chainblade Wyvern".data),
  ("波衣竜の守護".data, "Protection of the Wave-Wrought Wyvern".data),
  ("煌雷竜の力".data, "Power of the Shining Thunder Wyvern".data),
  ("雷顎竜の闘志".data, "Fighting Spirit of the Thunderjaw Wyvern".data),
  ("雪獅子の闘志".data, "Fighting Spirit of the Snow Lion".data),
  ("鎧竜の守護".data, "Protection of the Armored Wyvern".data),
  ("凍峰竜の反逆".data, "Rebellion of the Frostpeak Wyvern".data),
  ("暗器蛸の力".data, "Power of the Dagger Octopus".data),
  ("獄焔蛸の反逆".data, "Rebellion of the Hellflame Octopus".data),
  ("黒蝕竜の力".data, "Power of the Black Eclipse Dragon".data),
  ("鎖刃竜の飢餓".data, "Hunger of the Chainblade Wyvern".data),
  ("泡狐竜の力".data, "Power of the Bubble Fox Wyvern".data),
  ("白熾龍の脈動".data, "Pulse of the White Incandescent Dragon".data),
  ("花舞の祈り".data, "Prayer of the Flower Dance".data),
  ("千刃竜の闘志".data, "Fighting Spirit of the Thousand Blade Wyvern".data),
  ("海竜の渦雷".data, "Whirlpool Thunder of the Sea Wyvern".data),
  ("踊火の祈り".data, "Prayer of the Dancing Flame".data),
  ("暗黒騎士の証".data, "Proof of the Dark Knight".data),
  ("オメガレゾナンス".data, "Omega Resonance".data),
  ("夢灯の祈り".data, "Prayer of the Dreamlight".data),
  ("巨戟龍の黙示録".data, "Apocalypse of the Giant Halberd Dragon".data),
  ("祝謡の祈り".data, "Prayer of the Festive Hymn".data)]

/-- The two display languages. -/
inductive SkillLang where
  | ja
  | en
deriving DecidableEq

/-- Embedding of `getSkillLabel` (`part_008` lines 150-151):
`language === "en" ? (SKILL_EN_LABELS[skill] ?? skill) : skill`. -/
def getSkillLabel (skill : Str) (lang : SkillLang) : Str :=
  match lang with
  | .en => (((SKILL_EN_LABELS.find? (fun p => p.1 = skill)).map Prod.snd).getD skill)
  | .ja => skill

/-- Model of iterating a JS `Set` built from a list: membership-deduplicated,
first occurrence order. -/
def jsSetList (l : List Str) : List Str :=
  l.foldl (fun acc x => if x ∈ acc then acc else acc ++ [x]) []

/-- The variant set of one vocabulary entry (`ocr.ts` lines 89-93):
`new Set([option, getSkillLabel(option, "en"), getSkillLabel(option, "ja")])`. -/
def skillVariants (option : Str) : List Str :=
  jsSetList [option, getSkillLabel option .en, getSkillLabel option .ja]

/-- The character-bigram multiset of a text, as a list of adjacent pairs
(`buildBigramCounts`, `ocr.ts` lines 20-28, keeps the same multiset as a
count table). -/
def buildBigrams (text : Str) : List (Char × Char) := text.zip text.tail

/-- Multiset-intersection count: one point per target element still present
in the remaining source multiset, removing each matched occurrence
(the decrement of the count table in `ocr.ts` lines 34-43 and 52-60). -/
def multisetTake {α : Type} [DecidableEq α] : List α → List α → ℕ
  | _, [] => 0
  | rem, x :: xs => if x ∈ rem then multisetTake (rem.erase x) xs + 1 else multisetTake rem xs

/-- Embedding of `countBigramOverlap` (`ocr.ts` lines 30-44). -/
def countBigramOverlap (source target : Str) : ℕ :=
  if source = [] ∨ target = [] then 0
  else if buildBigrams source = [] then 0
  else multisetTake (buildBigrams source) (buildBigrams target)

/-- Embedding of `countMonogramOverlap` (`ocr.ts` lines 46-61). -/
def countMonogramOverlap (source target : Str) : ℕ :=
  if source = [] ∨ target = [] then 0
  else multisetTake source target

/-- The internal `MatchResult` record of `ocr.ts` lines 7-11. -/
structure MatchRecordM where
  skill : Str
  length : ℕ
  score : ℕ
deriving DecidableEq

/-- The per-option accumulators of the inner variant loop
(`bestOptionSubstringLength`, `bestOptionScore`, `bestOptionLength`,
`bestOptionMonoScore`, `bestOptionMonoLength`; `ocr.ts` lines 94-98). -/
structure OptionAcc where
  subLen : ℕ
  score : ℕ
  len : ℕ
  monoScore : ℕ
  monoLen : ℕ
deriving DecidableEq

/-- One iteration of the inner variant loop (`ocr.ts` lines 99-119). -/
def procVariant (ntext : Str) (acc : OptionAcc) (variant : Str) : OptionAcc :=
  if variant = [] then acc
  else
    let nv := normalizeOcrText variant
    if nv = [] then acc
    else if jsIncludes ntext nv = true then
      if acc.subLen < nv.length then { acc with subLen := nv.length } else acc
    else
      let score := countBigramOverlap ntext nv
      let acc1 :=
        if acc.score < score then { acc with score := score, len := nv.length } else acc
      let monoScore := countMonogramOverlap ntext nv
      if acc1.monoScore < monoScore then
        { acc1 with monoScore := monoScore, monoLen := nv.length }
      else acc1

/-- The three running bests (`bestSubstring`, `bestScore`, `bestMonoScore`;
`ocr.ts` lines 85-87). -/
structure MatchAcc where
  bestSubstring : MatchRecordM
  bestScore : MatchRecordM
  bestMonoScore : MatchRecordM
deriving DecidableEq

/-- Result of the inner variant loop for one option. -/
def innerAcc (ntext option : Str) : OptionAcc :=
  (skillVariants option).foldl (procVariant ntext) ⟨0, 0, 0, 0, 0⟩

/-- One iteration of the outer option loop (`ocr.ts` lines 88-165): a
substring hit feeds only the substring best (and skips the score bests); a
scoring option updates the bigram and monogram bests by strictly better
score, or equal score with strictly longer matched variant. -/
def procOption (ntext : Str) (g : MatchAcc) (option : Str) : MatchAcc :=
  let a := innerAcc ntext option
  if 0 < a.subLen then
    if g.bestSubstring.length < a.subLen then
      { g with bestSubstring := ⟨option, a.subLen, a.subLen⟩ }
    else g
  else
    let g1 :=
      if g.bestScore.score < a.score then { g with bestScore := ⟨option, a.len, a.score⟩ }
      else if a.score = g.bestScore.score ∧ g.bestScore.length < a.len then
        { g with bestScore := ⟨option, a.len, a.score⟩ }
      else g
    if g1.bestMonoScore.score < a.monoScore then
      { g1 with bestMonoScore := ⟨option, a.monoLen, a.monoScore⟩ }
    else if a.monoScore = g1.bestMonoScore.score ∧ g1.bestMonoScore.length < a.monoLen then
      { g1 with bestMonoScore := ⟨option, a.monoLen, a.monoScore⟩ }
    else g1

/-- The tier tag of a `SkillMatch` (`ocr.ts` line 17). -/
inductive MatchMode where
  | substring
  | bigram
  | monogram
  | none
deriving DecidableEq

/-- The exported `SkillMatch` shape (`ocr.ts` lines 13-18). -/
structure SkillMatch where
  skill : Str
  score : ℕ
  length : ℕ
  mode : MatchMode
deriving DecidableEq

/-- The three bests before the option loop (`ocr.ts` lines 85-87). -/
def matchInit : MatchAcc := ⟨⟨[], 0, 0⟩, ⟨[], 0, 0⟩, ⟨[], 0, 0⟩⟩

/-- The option loop of `matchSkillFromTextDetailed` (`ocr.ts` lines 88-165). -/
def matchFold (n : Str) (options : List Str) : MatchAcc :=
  options.foldl (procOption n) matchInit

/-- The final decision of `matchSkillFromTextDetailed` (`ocr.ts` lines
167-196): a recorded substring best wins outright (its truthiness test
`bestSubstring.skill` is nonemptiness), else the bigram best when its score
reached 1, else the monogram best when its score reached 1, else the unknown
sentinel. -/
def matchDecision (g : MatchAcc) : SkillMatch :=
  if g.bestSubstring.skill ≠ [] then
    ⟨g.bestSubstring.skill, g.bestSubstring.length, g.bestSubstring.length, .substring⟩
  else if 1 ≤ g.bestScore.score then
    ⟨g.bestScore.skill, g.bestScore.score, g.bestScore.length, .bigram⟩
  else if 1 ≤ g.bestMonoScore.score then
    ⟨g.bestMonoScore.skill, g.bestMonoScore.score, g.bestMonoScore.length, .monogram⟩
  else ⟨UNKNOWN_SKILL_LABEL, 0, 0, .none⟩

/-- Embedding of `matchSkillFromTextDetailed` (`ocr.ts` lines 71-197). -/
def matchSkillFromTextDetailed (text : Str) (options : List Str) : SkillMatch :=
  let normalizedText := normalizeOcrText text
  if normalizedText = [] then ⟨UNKNOWN_SKILL_LABEL, 0, 0, .none⟩
  else matchDecision (matchFold normalizedText options)

/-- Embedding of `matchSkillFromText` (`ocr.ts` lines 66-69). -/
def matchSkillFromText (text : Str) (options : List Str) : Str :=
  (matchSkillFromTextDetailed text options).skill

/-- Substring-tier contribution of a single variant, following the spec: the
length of its nonempty normalization when that normalization occurs in the
normalized text, else 0. -/
def variantSubLen (ntext v : Str) : ℕ :=
  if v ≠ [] ∧ normalizeOcrText v ≠ [] ∧ jsIncludes ntext (normalizeOcrText v) = true then
    (normalizeOcrText v).length
  else 0

/-- The best substring-tier length of one vocabulary entry over its variants. -/
def optionSubLen (ntext o : Str) : ℕ :=
  (skillVariants o).foldl (fun m v => max m (variantSubLen ntext v)) 0

/-- Bigram-tier contribution of a single variant (variants that are
substrings of the text are excluded from scoring by the `continue`). -/
def variantBigramScore (ntext v : Str) : ℕ :=
  if v ≠ [] ∧ normalizeOcrText v ≠ [] ∧ ¬ jsIncludes ntext (normalizeOcrText v) = true then
    countBigramOverlap ntext (normalizeOcrText v)
  else 0

/-- The best bigram-tier score of one vocabulary entry over its variants. -/
def optionBigramScore (ntext o : Str) : ℕ :=
  (skillVariants o).foldl (fun m v => max m (variantBigramScore ntext v)) 0

/-- Monogram-tier contribution of a single variant. -/
def variantMonoScore (ntext v : Str) : ℕ :=
  if v ≠ [] ∧ normalizeOcrText v ≠ [] ∧ ¬ jsIncludes ntext (normalizeOcrText v) = true then
    countMonogramOverlap ntext (normalizeOcrText v)
  else 0

/-- The best monogram-tier score of one vocabulary entry over its variants. -/
def optionMonoScore (ntext o : Str) : ℕ :=
  (skillVariants o).foldl (fun m v => max m (variantMonoScore ntext v)) 0

/-- One inner-loop step records exactly the running maximum of the
substring-tier contributions. -/
theorem procVariant_subLen (n : Str) (acc : OptionAcc) (v : Str) :
    (procVariant n acc v).subLen = max acc.subLen (variantSubLen n v) := by
  unfold procVariant variantSubLen
  by_cases h1 : v = []
  · simp [h1]
  by_cases h2 : normalizeOcrText v = []
  · simp [h1, h2]
  by_cases h3 : jsIncludes n (normalizeOcrText v) = true
  · simp only [h1, h2, h3, if_neg, if_pos, not_false_iff, and_true, not_true_eq_false,
      ite_true, ite_false, ne_eq, true_and, and_self]
    by_cases h4 : acc.subLen < (normalizeOcrText v).length
    · rw [if_pos h4, max_eq_right (le_of_lt h4)]
    · rw [if_neg h4, max_eq_left (le_of_not_lt h4)]
  · simp only [h1, h2, h3, not_false_iff, ite_false, ne_eq, ite_true, and_false]
    split_ifs <;> simp_all

/-- One inner-loop step records exactly the running maximum of the
bigram-tier contributions. -/
theorem procVariant_score (n : Str) (acc : OptionAcc) (v : Str) :
    (procVariant n acc v).score = max acc.score (variantBigramScore n v) := by
  unfold procVariant variantBigramScore
  by_cases h1 : v = []
  · simp [h1]
  by_cases h2 : normalizeOcrText v = []
  · simp [h1, h2]
  by_cases h3 : jsIncludes n (normalizeOcrText v) = true
  · simp only [h1, h2, h3, not_false_iff, ite_true, ite_false, ne_eq, and_false,
      not_true_eq_false, and_true, true_and]
    split_ifs <;> simp_all
  · simp only [h1, h2, h3, not_false_iff, ite_true, ite_false, ne_eq, and_self,
      not_false_eq_true, and_true, true_and]
    by_cases h4 : acc.score < countBigramOverlap n (normalizeOcrText v)
    · rw [if_pos h4]
      split_ifs <;> simp_all <;> omega
    · rw [if_neg h4]
      split_ifs <;> simp_all <;> omega

/-- One inner-loop step records exactly the running maximum of the
monogram-tier contributions. -/
theorem procVariant_monoScore (n : Str) (acc : OptionAcc) (v : Str) :
    (procVariant n acc v).monoScore = max acc.monoScore (variantMonoScore n v) := by
  unfold procVariant variantMonoScore
  by_cases h1 : v = []
  · simp [h1]
  by_cases h2 : normalizeOcrText v = []
  · simp [h1, h2]
  by_cases h3 : jsIncludes n (normalizeOcrText v) = true
  · simp only [h1, h2, h3, not_false_iff, ite_true, ite_false, ne_eq, and_false,
      not_true_eq_false, and_true, true_and]
    split_ifs <;> simp_all
  · simp only [h1, h2, h3, not_false_iff, ite_true, ite_false, ne_eq, and_self,
      not_false_eq_true, and_true, true_and]
    by_cases h4 : acc.monoScore < countMonogramOverlap n (normalizeOcrText v)
    · split_ifs <;> simp_all <;> omega
    · split_ifs <;> simp_all <;> omega

/-- The inner loop cannot set a matched length while the score stays 0. -/
theorem procVariant_len_zero (n : Str) (acc : OptionAcc) (v : Str)
    (h : acc.score = 0 → acc.len = 0) :
    (procVariant n acc v).score = 0 → (procVariant n acc v).len = 0 := by
  unfold procVariant
  by_cases h1 : v = []
  · simpa [h1] using h
  by_cases h2 : normalizeOcrText v = []
  · simpa [h1, h2] using h
  by_cases h3 : jsIncludes n (normalizeOcrText v) = true
  · simp only [h1, h2, h3, not_false_iff, ite_true, ite_false]
    split_ifs <;> simpa using h
  · simp only [h1, h2, h3, not_false_iff, ite_true, ite_false]
    by_cases h4 : acc.score < countBigramOverlap n (normalizeOcrText v)
    · rw [if_pos h4]
      split_ifs <;> intro hz <;> simp_all <;> omega
    · rw [if_neg h4]
      split_ifs <;> simpa using h

/-- The inner loop cannot set a monogram length while its score stays 0. -/
theorem procVariant_monoLen_zero (n : Str) (acc : OptionAcc) (v : Str)
    (h : acc.monoScore = 0 → acc.monoLen = 0) :
    (procVariant n acc v).monoScore = 0 → (procVariant n acc v).monoLen = 0 := by
  unfold procVariant
  by_cases h1 : v = []
  · simpa [h1] using h
  by_cases h2 : normalizeOcrText v = []
  · simpa [h1, h2] using h
  by_cases h3 : jsIncludes n (normalizeOcrText v) = true
  · simp only [h1, h2, h3, not_false_iff, ite_true, ite_false]
    split_ifs <;> simpa using h
  · simp only [h1, h2, h3, not_false_iff, ite_true, ite_false]
    by_cases h4 : acc.monoScore < countMonogramOverlap n (normalizeOcrText v)
    · split_ifs <;> intro hz <;> simp_all <;> omega
    · split_ifs <;> intro hz <;> simp_all <;> omega

/-- Folding the inner loop computes the running maximum of the
substring-tier contributions. -/
theorem foldl_procVariant_subLen (n : Str) :
    ∀ (vs : List Str) (acc : OptionAcc),
      (vs.foldl (procVariant n) acc).subLen =
        vs.foldl (fun m v => max m (variantSubLen n v)) acc.subLen := by
  intro vs
  induction vs with
  | nil => intro acc; rfl
  | cons v vs ih =>
    intro acc
    rw [List.foldl_cons, List.foldl_cons, ih, procVariant_subLen]

/-- Folding the inner loop computes the running maximum of the bigram-tier
contributions. -/
theorem foldl_procVariant_score (n : Str) :
    ∀ (vs : List Str) (acc : OptionAcc),
      (vs.foldl (procVariant n) acc).score =
        vs.foldl (fun m v => max m (variantBigramScore n v)) acc.score := by
  intro vs
  induction vs with
  | nil => intro acc; rfl
  | cons v vs ih =>
    intro acc
    rw [List.foldl_cons, List.foldl_cons, ih, procVariant_score]

/-- Folding the inner loop computes the running maximum of the monogram-tier
contributions. -/
theorem foldl_procVariant_monoScore (n : Str) :
    ∀ (vs : List Str) (acc : OptionAcc),
      (vs.foldl (procVariant n) acc).monoScore =
        vs.foldl (fun m v => max m (variantMonoScore n v)) acc.monoScore := by
  intro vs
  induction vs with
  | nil => intro acc; rfl
  | cons v vs ih =>
    intro acc
    rw [List.foldl_cons, List.foldl_cons, ih, procVariant_monoScore]

/-- The inner loop's substring best equals the per-option substring length. -/
theorem innerAcc_subLen (n o : Str) : (innerAcc n o).subLen = optionSubLen n o :=
  foldl_procVariant_subLen n (skillVariants o) ⟨0, 0, 0, 0, 0⟩

/-- The inner loop's bigram best equals the per-option bigram score. -/
theorem innerAcc_score (n o : Str) : (innerAcc n o).score = optionBigramScore n o :=
  foldl_procVariant_score n (skillVariants o) ⟨0, 0, 0, 0, 0⟩

/-- The inner loop's monogram best equals the per-option monogram score. -/
theorem innerAcc_monoScore (n o : Str) : (innerAcc n o).monoScore = optionMonoScore n o :=
  foldl_procVariant_monoScore n (skillVariants o) ⟨0, 0, 0, 0, 0⟩

/-- A zero per-option bigram score comes with a zero recorded length. -/
theorem innerAcc_len_zero (n o : Str) :
    (innerAcc n o).score = 0 → (innerAcc n o).len = 0 := by
  unfold innerAcc
  generalize skillVariants o = vs
  induction vs using List.reverseRecOn with
  | nil => intro _; rfl
  | append_singleton vs v ih =>
    rw [List.foldl_append, List.foldl_cons, List.foldl_nil]
    exact procVariant_len_zero n _ v ih

/-- A zero per-option monogram score comes with a zero recorded length. -/
theorem innerAcc_monoLen_zero (n o : Str) :
    (innerAcc n o).monoScore = 0 → (innerAcc n o).monoLen = 0 := by
  unfold innerAcc
  generalize skillVariants o = vs
  induction vs using List.reverseRecOn with
  | nil => intro _; rfl
  | append_singleton vs v ih =>
    rw [List.foldl_append, List.foldl_cons, List.foldl_nil]
    exact procVariant_monoLen_zero n _ v ih

/-- The maximum of a score function over a list of options. -/
def maxOver (f : Str → ℕ) (l : List Str) : ℕ :=
  l.foldl (fun m o => max m (f o)) 0

/-- Appending one option takes a maximum with its score. -/
theorem maxOver_append (f : Str → ℕ) (l : List Str) (o : Str) :
    maxOver f (l ++ [o]) = max (maxOver f l) (f o) := by
  unfold maxOver
  rw [List.foldl_append, List.foldl_cons, List.foldl_nil]

/-- The running maximum dominates the seed. -/
theorem foldl_max_seed_le (f : Str → ℕ) :
    ∀ (l : List Str) (m : ℕ), m ≤ l.foldl (fun m o => max m (f o)) m := by
  intro l
  induction l with
  | nil => intro m; exact le_rfl
  | cons x xs ih =>
    intro m
    exact le_trans (le_max_left m (f x)) (ih (max m (f x)))

/-- Every member's score is dominated by the running maximum. -/
theorem le_foldl_max (f : Str → ℕ) :
    ∀ (l : List Str) (m : ℕ) (x : Str), x ∈ l → f x ≤ l.foldl (fun m o => max m (f o)) m := by
  intro l
  induction l with
  | nil => intro m x hx; exact absurd hx (List.not_mem_nil x)
  | cons y ys ih =>
    intro m x hx
    rcases List.mem_cons.mp hx with h | h
    · subst h
      exact le_trans (le_max_right m (f x)) (foldl_max_seed_le f ys _)
    · exact ih _ x h

/-- Every member's score is dominated by the maximum over the list. -/
theorem le_maxOver (f : Str → ℕ) (l : List Str) (x : Str) (hx : x ∈ l) :
    f x ≤ maxOver f l := le_foldl_max f l 0 x hx

/-- The maximum over a list of zero scores is zero. -/
theorem maxOver_eq_zero (f : Str → ℕ) :
    ∀ (l : List Str), (∀ x ∈ l, f x = 0) → maxOver f l = 0 := by
  intro l
  induction l using List.reverseRecOn with
  | nil => intro _; rfl
  | append_singleton xs x ih =>
    intro h
    rw [maxOver_append, ih (fun y hy => h y (List.mem_append_left _ hy)),
      h x (List.mem_append_right _ (List.mem_singleton_self x))]
    rfl

/-- The empty string is not a vocabulary entry with variants: it only yields
itself, which the loop skips. -/
theorem skillVariants_nil : skillVariants [] = [[]] := by decide

/-- The empty option has substring length 0 whatever the text. -/
theorem optionSubLen_nil (n : Str) : optionSubLen n [] = 0 := by
  unfold optionSubLen
  rw [skillVariants_nil]
  simp [variantSubLen]

/-- The outer loop updates the substring best exactly when the option's
substring length is positive and beats the recorded one. -/
theorem procOption_bs_char (n : Str) (g : MatchAcc) (o : Str) :
    (procOption n g o).bestSubstring =
      if 0 < optionSubLen n o ∧ g.bestSubstring.length < optionSubLen n o then
        ⟨o, optionSubLen n o, optionSubLen n o⟩
      else g.bestSubstring := by
  unfold procOption
  simp only [innerAcc_subLen]
  by_cases h1 : 0 < optionSubLen n o
  · rw [if_pos h1]
    by_cases h2 : g.bestSubstring.length < optionSubLen n o
    · rw [if_pos h2, if_pos ⟨h1, h2⟩]
    · rw [if_neg h2,
        if_neg (show ¬(0 < optionSubLen n o ∧ g.bestSubstring.length < optionSubLen n o)
          from fun h => h2 h.2)]
  · rw [if_neg h1,
      if_neg (show ¬(0 < optionSubLen n o ∧ g.bestSubstring.length < optionSubLen n o)
        from fun h => h1 h.1)]
    split_ifs <;> rfl

/-- A zero-substring option leaves the substring best unchanged. -/
theorem procOption_bs_of_zero (n : Str) (g : MatchAcc) (o : Str)
    (h0 : optionSubLen n o = 0) :
    (procOption n g o).bestSubstring = g.bestSubstring := by
  rw [procOption_bs_char, if_neg (by omega)]

/-- A substring-hit option leaves the two score bests unchanged. -/
theorem procOption_scores_of_pos (n : Str) (g : MatchAcc) (o : Str)
    (hpos : 0 < optionSubLen n o) :
    (procOption n g o).bestScore = g.bestScore ∧
      (procOption n g o).bestMonoScore = g.bestMonoScore := by
  unfold procOption
  simp only [innerAcc_subLen]
  rw [if_pos hpos]
  split_ifs <;> exact ⟨rfl, rfl⟩

/-- On a zero-substring option the recorded bigram best score becomes the
maximum of the old one and the option's score. -/
theorem procOption_score_max (n : Str) (g : MatchAcc) (o : Str)
    (h0 : optionSubLen n o = 0) :
    (procOption n g o).bestScore.score = max g.bestScore.score (optionBigramScore n o) := by
  unfold procOption
  simp only [innerAcc_subLen, innerAcc_score, h0]
  rw [if_neg (by omega)]
  by_cases h1 : g.bestScore.score < optionBigramScore n o
  · rw [if_pos h1]
    split_ifs <;> simp [max_eq_right (le_of_lt h1)]
  · rw [if_neg h1]
    split_ifs <;> simp_all [max_eq_left (le_of_not_lt h1)]

/-- On a zero-substring option the bigram best is either kept or replaced by
a record for this option carrying exactly this option's score. -/
theorem procOption_score_cases (n : Str) (g : MatchAcc) (o : Str)
    (h0 : optionSubLen n o = 0) :
    (procOption n g o).bestScore = g.bestScore ∨
      ((procOption n g o).bestScore.skill = o ∧
        (procOption n g o).bestScore.score = optionBigramScore n o) := by
  unfold procOption
  simp only [innerAcc_subLen, innerAcc_score, h0]
  rw [if_neg (by omega)]
  by_cases h1 : g.bestScore.score < optionBigramScore n o
  · rw [if_pos h1]
    split_ifs <;> right <;> exact ⟨rfl, rfl⟩
  · rw [if_neg h1]
    by_cases h2 : optionBigramScore n o = g.bestScore.score ∧
        g.bestScore.length < (innerAcc n o).len
    · rw [if_pos h2]
      split_ifs <;> right <;> exact ⟨rfl, rfl⟩
    · rw [if_neg h2]
      split_ifs <;> left <;> rfl

/-- On a zero-substring option the recorded monogram best score becomes the
maximum of the old one and the option's monogram score. -/
theorem procOption_monoScore_max (n : Str) (g : MatchAcc) (o : Str)
    (h0 : optionSubLen n o = 0) :
    (procOption n g o).bestMonoScore.score =
      max g.bestMonoScore.score (optionMonoScore n o) := by
  unfold procOption
  simp only [innerAcc_subLen, innerAcc_monoScore, h0]
  rw [if_neg (by omega)]
  by_cases hA : g.bestScore.score < (innerAcc n o).score
  · rw [if_pos hA]
    dsimp only
    split_ifs with h1 h2 <;> (try dsimp only) <;> omega
  · rw [if_neg hA]
    by_cases hB : (innerAcc n o).score = g.bestScore.score ∧
        g.bestScore.length < (innerAcc n o).len
    · rw [if_pos hB]
      dsimp only
      split_ifs with h1 h2 <;> (try dsimp only) <;> omega
    · rw [if_neg hB]
      split_ifs with h1 h2 <;> (try dsimp only) <;> omega

/-- On a zero-substring option the monogram best is either kept or replaced
by a record for this option carrying exactly this option's monogram score. -/
theorem procOption_monoScore_cases (n : Str) (g : MatchAcc) (o : Str)
    (h0 : optionSubLen n o = 0) :
    (procOption n g o).bestMonoScore = g.bestMonoScore ∨
      ((procOption n g o).bestMonoScore.skill = o ∧
        (procOption n g o).bestMonoScore.score = optionMonoScore n o) := by
  unfold procOption
  simp only [innerAcc_subLen, innerAcc_monoScore, h0]
  rw [if_neg (by omega)]
  by_cases hA : g.bestScore.score < (innerAcc n o).score
  · rw [if_pos hA]
    dsimp only
    split_ifs <;> (try dsimp only)
    · right
      exact ⟨rfl, rfl⟩
    · right
      exact ⟨rfl, rfl⟩
    · left
      rfl
  · rw [if_neg hA]
    by_cases hB : (innerAcc n o).score = g.bestScore.score ∧
        g.bestScore.length < (innerAcc n o).len
    · rw [if_pos hB]
      dsimp only
      split_ifs <;> (try dsimp only)
      · right
        exact ⟨rfl, rfl⟩
      · right
        exact ⟨rfl, rfl⟩
      · left
        rfl
    · rw [if_neg hB]
      split_ifs <;> (try dsimp only)
      · right
        exact ⟨rfl, rfl⟩
      · right
        exact ⟨rfl, rfl⟩
      · left
        rfl

/-- Invariant of the option fold for the substring tier: either no processed
option has a substring hit and the best is still empty, or the best records a
processed option's exact best substring length, which dominates all processed
options. -/
def SubInv (n : Str) (P : List Str) (g : MatchAcc) : Prop :=
  (g.bestSubstring.skill = [] ∧ g.bestSubstring.length = 0 ∧
    ∀ o ∈ P, optionSubLen n o = 0) ∨
  (g.bestSubstring.skill ∈ P ∧ g.bestSubstring.skill ≠ [] ∧
    0 < g.bestSubstring.length ∧
    g.bestSubstring.length = optionSubLen n g.bestSubstring.skill ∧
    g.bestSubstring.score = g.bestSubstring.length ∧
    ∀ o ∈ P, optionSubLen n o ≤ g.bestSubstring.length)

/-- One option step preserves the substring invariant. -/
theorem procOption_SubInv (n : Str) (P : List Str) (g : MatchAcc) (o : Str)
    (h : SubInv n P g) : SubInv n (P ++ [o]) (procOption n g o) := by
  unfold SubInv at h ⊢
  have hbs := procOption_bs_char n g o
  by_cases hc : 0 < optionSubLen n o ∧ g.bestSubstring.length < optionSubLen n o
  · rw [if_pos hc] at hbs
    right
    rw [hbs]
    refine ⟨List.mem_append_right _ (List.mem_singleton_self o), ?_, hc.1, rfl, rfl, ?_⟩
    · intro ho
      have ho2 : o = [] := ho
      rw [ho2, optionSubLen_nil] at hc
      exact absurd hc.1 (lt_irrefl 0)
    · intro p hp
      rcases List.mem_append.mp hp with hp | hp
      · rcases h with ⟨_, _, hall⟩ | ⟨_, _, _, _, _, hbound⟩
        · rw [hall p hp]
          exact Nat.zero_le _
        · exact le_trans (hbound p hp) (le_of_lt hc.2)
      · rw [List.mem_singleton.mp hp]
  · rw [if_neg hc] at hbs
    push_neg at hc
    rcases h with ⟨hskill, hlen, hall⟩ | ⟨hmem, hne, hpos, hlen, hscore, hbound⟩
    · left
      rw [hbs]
      refine ⟨hskill, hlen, ?_⟩
      intro p hp
      rcases List.mem_append.mp hp with hp | hp
      · exact hall p hp
      · rw [List.mem_singleton.mp hp]
        rcases Nat.eq_zero_or_pos (optionSubLen n o) with h0 | h0
        · exact h0
        · have := hc h0
          omega
    · right
      rw [hbs]
      refine ⟨List.mem_append_left _ hmem, hne, hpos, hlen, hscore, ?_⟩
      intro p hp
      rcases List.mem_append.mp hp with hp | hp
      · exact hbound p hp
      · rw [List.mem_singleton.mp hp]
        rcases Nat.eq_zero_or_pos (optionSubLen n o) with h0 | h0
        · omega
        · exact hc h0

/-- The substring invariant holds along the whole option fold. -/
theorem foldl_SubInv (n : Str) :
    ∀ (opts P : List Str) (g : MatchAcc),
      SubInv n P g → SubInv n (P ++ opts) (opts.foldl (procOption n) g) := by
  intro opts
  induction opts with
  | nil =>
    intro P g h
    rw [List.append_nil]
    exact h
  | cons o opts ih =>
    intro P g h
    rw [List.foldl_cons]
    have h2 := ih (P ++ [o]) (procOption n g o) (procOption_SubInv n P g o h)
    rwa [List.append_assoc, List.singleton_append] at h2

/-- The substring invariant at the initial accumulator. -/
theorem SubInv_init (n : Str) : SubInv n [] matchInit :=
  Or.inl ⟨rfl, rfl, by simp⟩

/-- Invariant of the option fold when no option has a substring hit: the
substring best stays empty and each score best carries the running maximum
of its tier, achieved by some processed option once positive. -/
def ScoreInv (n : Str) (P : List Str) (g : MatchAcc) : Prop :=
  g.bestSubstring = ⟨[], 0, 0⟩ ∧
  g.bestScore.score = maxOver (optionBigramScore n) P ∧
  (1 ≤ g.bestScore.score → g.bestScore.skill ∈ P ∧
    g.bestScore.score = optionBigramScore n g.bestScore.skill) ∧
  g.bestMonoScore.score = maxOver (optionMonoScore n) P ∧
  (1 ≤ g.bestMonoScore.score → g.bestMonoScore.skill ∈ P ∧
    g.bestMonoScore.score = optionMonoScore n g.bestMonoScore.skill)

/-- One zero-substring option step preserves the score invariant. -/
theorem procOption_ScoreInv (n : Str) (P : List Str) (g : MatchAcc) (o : Str)
    (h0 : optionSubLen n o = 0) (h : ScoreInv n P g) :
    ScoreInv n (P ++ [o]) (procOption n g o) := by
  obtain ⟨hbs, hsc, hsk, hms, hmk⟩ := h
  refine ⟨?_, ?_, ?_, ?_, ?_⟩
  · rw [procOption_bs_of_zero n g o h0, hbs]
  · rw [procOption_score_max n g o h0, maxOver_append, hsc]
  · intro h1
    rcases procOption_score_cases n g o h0 with hcase | ⟨hskill, hscore⟩
    · rw [hcase] at h1 ⊢
      obtain ⟨hm, he⟩ := hsk h1
      exact ⟨List.mem_append_left _ hm, he⟩
    · rw [hskill, hscore]
      exact ⟨List.mem_append_right _ (List.mem_singleton_self o), rfl⟩
  · rw [procOption_monoScore_max n g o h0, maxOver_append, hms]
  · intro h1
    rcases procOption_monoScore_cases n g o h0 with hcase | ⟨hskill, hscore⟩
    · rw [hcase] at h1 ⊢
      obtain ⟨hm, he⟩ := hmk h1
      exact ⟨List.mem_append_left _ hm, he⟩
    · rw [hskill, hscore]
      exact ⟨List.mem_append_right _ (List.mem_singleton_self o), rfl⟩

/-- The score invariant holds along the whole option fold when no processed
option has a substring hit. -/
theorem foldl_ScoreInv (n : Str) :
    ∀ (opts P : List Str) (g : MatchAcc),
      (∀ o ∈ opts, optionSubLen n o = 0) →
      ScoreInv n P g → ScoreInv n (P ++ opts) (opts.foldl (procOption n) g) := by
  intro opts
  induction opts with
  | nil =>
    intro P g _ h
    rw [List.append_nil]
    exact h
  | cons o opts ih =>
    intro P g hz h
    rw [List.foldl_cons]
    have h2 := ih (P ++ [o]) (procOption n g o)
      (fun p hp => hz p (List.mem_cons_of_mem o hp))
      (procOption_ScoreInv n P g o (hz o (List.mem_cons_self o opts)) h)
    rwa [List.append_assoc, List.singleton_append] at h2

/-- The score invariant at the initial accumulator. -/
theorem ScoreInv_init (n : Str) : ScoreInv n [] matchInit :=
  ⟨rfl, rfl, fun h => absurd h (by simp [matchInit]), rfl,
    fun h => absurd h (by simp [matchInit])⟩

/-- Membership invariant of the option fold: any recorded substring winner
and any score best that reached 1 name a vocabulary entry. -/
def MemInv (options : List Str) (g : MatchAcc) : Prop :=
  (g.bestSubstring.skill ≠ [] → g.bestSubstring.skill ∈ options) ∧
  (1 ≤ g.bestScore.score → g.bestScore.skill ∈ options) ∧
  (1 ≤ g.bestMonoScore.score → g.bestMonoScore.skill ∈ options)

/-- One option step preserves the membership invariant. -/
theorem procOption_MemInv (options : List Str) (n : Str) (g : MatchAcc) (o : Str)
    (ho : o ∈ options) (h : MemInv options g) : MemInv options (procOption n g o) := by
  obtain ⟨h1, h2, h3⟩ := h
  rcases Nat.eq_zero_or_pos (optionSubLen n o) with h0 | h0
  · refine ⟨?_, ?_, ?_⟩
    · rw [procOption_bs_of_zero n g o h0]
      exact h1
    · intro hs
      rcases procOption_score_cases n g o h0 with hc | ⟨hskill, _⟩
      · rw [hc] at hs ⊢
        exact h2 hs
      · rw [hskill]
        exact ho
    · intro hs
      rcases procOption_monoScore_cases n g o h0 with hc | ⟨hskill, _⟩
      · rw [hc] at hs ⊢
        exact h3 hs
      · rw [hskill]
        exact ho
  · obtain ⟨hsc, hms⟩ := procOption_scores_of_pos n g o h0
    have hbs := procOption_bs_char n g o
    refine ⟨?_, ?_, ?_⟩
    · split_ifs at hbs with hcond
      · rw [hbs]
        intro _
        exact ho
      · rw [hbs]
        exact h1
    · rw [hsc]
      exact h2
    · rw [hms]
      exact h3

/-- The membership invariant holds along the whole option fold. -/
theorem foldl_MemInv (options : List Str) (n : Str) :
    ∀ (opts : List Str) (g : MatchAcc),
      (∀ o ∈ opts, o ∈ options) →
      MemInv options g → MemInv options (opts.foldl (procOption n) g) := by
  intro opts
  induction opts with
  | nil => intro g _ h; exact h
  | cons o opts ih =>
    intro g hsub h
    rw [List.foldl_cons]
    exact ih (procOption n g o) (fun p hp => hsub p (List.mem_cons_of_mem o hp))
      (procOption_MemInv options n g o (hsub o (List.mem_cons_self o opts)) h)

/-- The membership invariant at the initial accumulator. -/
theorem MemInv_init (options : List Str) : MemInv options matchInit :=
  ⟨fun h => absurd rfl h, fun h => absurd h (by simp [matchInit]),
    fun h => absurd h (by simp [matchInit])⟩

/-- Decision rule when a substring best was recorded. -/
theorem matchDecision_of_bs (g : MatchAcc) (h : g.bestSubstring.skill ≠ []) :
    matchDecision g =
      ⟨g.bestSubstring.skill, g.bestSubstring.length, g.bestSubstring.length, .substring⟩ := by
  unfold matchDecision
  rw [if_pos h]

/-- Decision rule for the bigram tier. -/
theorem matchDecision_of_big (g : MatchAcc) (h : g.bestSubstring.skill = [])
    (h2 : 1 ≤ g.bestScore.score) :
    matchDecision g = ⟨g.bestScore.skill, g.bestScore.score, g.bestScore.length, .bigram⟩ := by
  unfold matchDecision
  rw [if_neg (fun hne => hne h), if_pos h2]

/-- Decision rule for the monogram tier. -/
theorem matchDecision_of_mono (g : MatchAcc) (h : g.bestSubstring.skill = [])
    (h2 : g.bestScore.score = 0) (h3 : 1 ≤ g.bestMonoScore.score) :
    matchDecision g =
      ⟨g.bestMonoScore.skill, g.bestMonoScore.score, g.bestMonoScore.length, .monogram⟩ := by
  unfold matchDecision
  rw [if_neg (fun hne => hne h), if_neg (by omega), if_pos h3]

/-- Decision rule for the unknown sentinel. -/
theorem matchDecision_of_none (g : MatchAcc) (h : g.bestSubstring.skill = [])
    (h2 : g.bestScore.score = 0) (h3 : g.bestMonoScore.score = 0) :
    matchDecision g = ⟨UNKNOWN_SKILL_LABEL, 0, 0, .none⟩ := by
  unfold matchDecision
  rw [if_neg (fun hne => hne h), if_neg (by omega), if_neg (by omega)]

/-- Unfolding of `matchSkillFromTextDetailed` on nonempty normalized text. -/
theorem matchDetailed_of_ne (text : Str) (options : List Str)
    (h : normalizeOcrText text ≠ []) :
    matchSkillFromTextDetailed text options =
      matchDecision (matchFold (normalizeOcrText text) options) := by
  unfold matchSkillFromTextDetailed
  rw [if_neg h]

/-- Unfolding of `matchSkillFromTextDetailed` on empty normalized text. -/
theorem matchDetailed_of_empty (text : Str) (options : List Str)
    (h : normalizeOcrText text = []) :
    matchSkillFromTextDetailed text options = ⟨UNKNOWN_SKILL_LABEL, 0, 0, .none⟩ := by
  unfold matchSkillFromTextDetailed
  rw [if_pos h]

/-- C2 counterexample: the entry `"."` has the variant `"."` whose
normalization is the empty string, a contiguous substring of the normalized
input `"abc"`; yet the matcher skips empty-normalizing variants and returns
the unknown sentinel rather than a substring-mode hit. -/
theorem c2_substring_counterexample :
    jsIncludes (normalizeOcrText "abc".data) (normalizeOcrText ".".data) = true ∧
    matchSkillFromTextDetailed "abc".data [".".data] =
      ⟨UNKNOWN_SKILL_LABEL, 0, 0, .none⟩ := by
  constructor
  · decide
  · decide

/-- C2 (amended): the tiered decision of `matchSkillFromTextDetailed`. If
some entry has a variant with a nonempty normalization occurring in the
nonempty normalized input, the result is that tier: substring mode, the
winner is an entry whose best (nonempty) matched variant length is maximal
and equals score and length. Otherwise, with no substring hit anywhere, the
best bigram entry wins when its score reaches 1, else the best monogram
entry when its score reaches 1, else the unknown sentinel; an input with
empty normalization yields the sentinel outright. -/
theorem c2_tiered_decision (text : Str) (options : List Str) :
    ((normalizeOcrText text ≠ []) → (∃ o ∈ options, 0 < optionSubLen (normalizeOcrText text) o) →
      (matchSkillFromTextDetailed text options).mode = .substring ∧
      ∃ o ∈ options, (matchSkillFromTextDetailed text options).skill = o ∧
        0 < optionSubLen (normalizeOcrText text) o ∧
        (matchSkillFromTextDetailed text options).score = optionSubLen (normalizeOcrText text) o ∧
        (matchSkillFromTextDetailed text options).length =
          (matchSkillFromTextDetailed text options).score ∧
        ∀ o2 ∈ options, optionSubLen (normalizeOcrText text) o2 ≤
          (matchSkillFromTextDetailed text options).score) ∧
    ((normalizeOcrText text ≠ []) → (∀ o ∈ options, optionSubLen (normalizeOcrText text) o = 0) →
      (((∃ o ∈ options, 1 ≤ optionBigramScore (normalizeOcrText text) o) →
        (matchSkillFromTextDetailed text options).mode = .bigram ∧
        ∃ o ∈ options, (matchSkillFromTextDetailed text options).skill = o ∧
          (matchSkillFromTextDetailed text options).score =
            optionBigramScore (normalizeOcrText text) o ∧
          1 ≤ (matchSkillFromTextDetailed text options).score ∧
          ∀ o2 ∈ options, optionBigramScore (normalizeOcrText text) o2 ≤
            (matchSkillFromTextDetailed text options).score) ∧
      ((∀ o ∈ options, optionBigramScore (normalizeOcrText text) o = 0) →
        (∃ o ∈ options, 1 ≤ optionMonoScore (normalizeOcrText text) o) →
        (matchSkillFromTextDetailed text options).mode = .monogram ∧
        ∃ o ∈ options, (matchSkillFromTextDetailed text options).skill = o ∧
          (matchSkillFromTextDetailed text options).score =
            optionMonoScore (normalizeOcrText text) o ∧
          1 ≤ (matchSkillFromTextDetailed text options).score ∧
          ∀ o2 ∈ options, optionMonoScore (normalizeOcrText text) o2 ≤
            (matchSkillFromTextDetailed text options).score) ∧
      ((∀ o ∈ options, optionBigramScore (normalizeOcrText text) o = 0) →
        (∀ o ∈ options, optionMonoScore (normalizeOcrText text) o = 0) →
        matchSkillFromTextDetailed text options = ⟨UNKNOWN_SKILL_LABEL, 0, 0, .none⟩))) ∧
    ((normalizeOcrText text = []) →
      matchSkillFromTextDetailed text options = ⟨UNKNOWN_SKILL_LABEL, 0, 0, .none⟩) := by
  refine ⟨?_, ?_, matchDetailed_of_empty text options⟩
  · intro hn hex
    have hsub0 := foldl_SubInv (normalizeOcrText text) options [] matchInit
      (SubInv_init (normalizeOcrText text))
    rw [List.nil_append] at hsub0
    have hsub : SubInv (normalizeOcrText text) options
        (matchFold (normalizeOcrText text) options) := hsub0
    rcases hsub with ⟨_, _, hall⟩ | ⟨hmem, hne, hpos, hlen, _, hbound⟩
    · obtain ⟨o, ho, hgt⟩ := hex
      rw [hall o ho] at hgt
      exact absurd hgt (lt_irrefl 0)
    · rw [matchDetailed_of_ne text options hn,
        matchDecision_of_bs (matchFold (normalizeOcrText text) options) hne]
      refine ⟨rfl, (matchFold (normalizeOcrText text) options).bestSubstring.skill,
        hmem, rfl, ?_, ?_, rfl, ?_⟩
      · rw [← hlen]
        exact hpos
      · exact hlen
      · intro o2 ho2
        exact hbound o2 ho2
  · intro hn hz
    have hsc0 := foldl_ScoreInv (normalizeOcrText text) options [] matchInit hz
      (ScoreInv_init (normalizeOcrText text))
    rw [List.nil_append] at hsc0
    have hsc : ScoreInv (normalizeOcrText text) options
        (matchFold (normalizeOcrText text) options) := hsc0
    obtain ⟨hbs, hscore, hskill, hmscore, hmskill⟩ := hsc
    have hbsskill : (matchFold (normalizeOcrText text) options).bestSubstring.skill = [] := by
      rw [hbs]
    refine ⟨?_, ?_, ?_⟩
    · intro hex
      obtain ⟨o, ho, h1⟩ := hex
      have hmax : 1 ≤ (matchFold (normalizeOcrText text) options).bestScore.score := by
        rw [hscore]
        exact le_trans h1 (le_maxOver _ options o ho)
      obtain ⟨hm, he⟩ := hskill hmax
      rw [matchDetailed_of_ne text options hn,
        matchDecision_of_big (matchFold (normalizeOcrText text) options) hbsskill hmax]
      refine ⟨rfl, (matchFold (normalizeOcrText text) options).bestScore.skill,
        hm, rfl, he, hmax, ?_⟩
      intro o2 ho2
      rw [hscore]
      exact le_maxOver _ options o2 ho2
    · intro hbz hex
      have hzero : (matchFold (normalizeOcrText text) options).bestScore.score = 0 := by
        rw [hscore]
        exact maxOver_eq_zero _ options hbz
      obtain ⟨o, ho, h1⟩ := hex
      have hmax : 1 ≤ (matchFold (normalizeOcrText text) options).bestMonoScore.score := by
        rw [hmscore]
        exact le_trans h1 (le_maxOver _ options o ho)
      obtain ⟨hm, he⟩ := hmskill hmax
      rw [matchDetailed_of_ne text options hn,
        matchDecision_of_mono (matchFold (normalizeOcrText text) options) hbsskill hzero hmax]
      refine ⟨rfl, (matchFold (normalizeOcrText text) options).bestMonoScore.skill,
        hm, rfl, he, hmax, ?_⟩
      intro o2 ho2
      rw [hmscore]
      exact le_maxOver _ options o2 ho2
    · intro hbz hmz
      have hzero : (matchFold (normalizeOcrText text) options).bestScore.score = 0 := by
        rw [hscore]
        exact maxOver_eq_zero _ options hbz
      have hmzero : (matchFold (normalizeOcrText text) options).bestMonoScore.score = 0 := by
        rw [hmscore]
        exact maxOver_eq_zero _ options hmz
      rw [matchDetailed_of_ne text options hn,
        matchDecision_of_none (matchFold (normalizeOcrText text) options) hbsskill hzero hmzero]

/-- C2 witness: the substring tier at a concrete vocabulary. -/
theorem c2_tiered_decision_witness :
    (matchSkillFromTextDetailed "abc".data ["ab".data]).mode = .substring :=
  ((c2_tiered_decision "abc".data ["ab".data]).1 (by decide)
    ⟨"ab".data, by decide, by decide⟩).1

/-- C10 counterexample to the sentinel-exactness as stated: if the sentinel
string itself is a vocabulary entry, it can be returned as a genuine
substring match, so the sentinel does not appear only with mode none. -/
theorem c10_sentinel_counterexample :
    (matchSkillFromTextDetailed "不明".data [UNKNOWN_SKILL_LABEL]).skill =
      UNKNOWN_SKILL_LABEL ∧
    (matchSkillFromTextDetailed "不明".data [UNKNOWN_SKILL_LABEL]).mode =
      .substring := by
  constructor
  · decide
  · decide

/-- C10 (amended): the returned skill is always an element of the options
list or the sentinel `不明`, never a language-variant spelling; mode none
always comes with the sentinel and zero score and length; when the sentinel
itself is not a vocabulary entry, the sentinel is returned exactly when the
mode is none; and empty normalized input or an empty options list yield the
sentinel result outright. -/
theorem c10_skill_membership (text : Str) (options : List Str) :
    ((matchSkillFromTextDetailed text options).skill ∈ options ∨
      (matchSkillFromTextDetailed text options).skill = UNKNOWN_SKILL_LABEL) ∧
    ((matchSkillFromTextDetailed text options).mode = .none →
      (matchSkillFromTextDetailed text options).skill = UNKNOWN_SKILL_LABEL ∧
      (matchSkillFromTextDetailed text options).score = 0 ∧
      (matchSkillFromTextDetailed text options).length = 0) ∧
    (UNKNOWN_SKILL_LABEL ∉ options →
      ((matchSkillFromTextDetailed text options).skill = UNKNOWN_SKILL_LABEL ↔
        (matchSkillFromTextDetailed text options).mode = .none)) ∧
    (normalizeOcrText text = [] →
      matchSkillFromTextDetailed text options = ⟨UNKNOWN_SKILL_LABEL, 0, 0, .none⟩) ∧
    (options = [] →
      matchSkillFromTextDetailed text options = ⟨UNKNOWN_SKILL_LABEL, 0, 0, .none⟩) := by
  by_cases hn : normalizeOcrText text = []
  · have hres := matchDetailed_of_empty text options hn
    rw [hres]
    exact ⟨Or.inr rfl, fun _ => ⟨rfl, rfl, rfl⟩,
      fun _ => ⟨fun _ => rfl, fun _ => rfl⟩, fun _ => rfl, fun _ => rfl⟩
  · have hres := matchDetailed_of_ne text options hn
    have hmem : MemInv options (matchFold (normalizeOcrText text) options) :=
      foldl_MemInv options (normalizeOcrText text) options matchInit
        (fun o ho => ho) (MemInv_init options)
    obtain ⟨hm1, hm2, hm3⟩ := hmem
    have hUne : UNKNOWN_SKILL_LABEL ≠ ([] : Str) := by decide
    by_cases hbs : (matchFold (normalizeOcrText text) options).bestSubstring.skill ≠ []
    · rw [hres, matchDecision_of_bs _ hbs]
      have hin := hm1 hbs
      refine ⟨Or.inl hin, ?_, ?_, fun h0 => absurd h0 hn, ?_⟩
      · intro hmode
        exact absurd hmode (by simp)
      · intro hnot
        constructor
        · intro hskill
          exact absurd (hskill ▸ hin) hnot
        · intro hmode
          exact absurd hmode (by simp)
      · intro hopts
        exfalso
        apply hbs
        rw [hopts]
        rfl
    · push_neg at hbs
      by_cases hb1 : 1 ≤ (matchFold (normalizeOcrText text) options).bestScore.score
      · rw [hres, matchDecision_of_big _ hbs hb1]
        have hin := hm2 hb1
        refine ⟨Or.inl hin, ?_, ?_, fun h0 => absurd h0 hn, ?_⟩
        · intro hmode
          exact absurd hmode (by simp)
        · intro hnot
          constructor
          · intro hskill
            exact absurd (hskill ▸ hin) hnot
          · intro hmode
            exact absurd hmode (by simp)
        · intro hopts
          exfalso
          rw [hopts] at hb1
          have : (matchFold (normalizeOcrText text) []).bestScore.score = 0 := rfl
          omega
      · by_cases hmo1 : 1 ≤ (matchFold (normalizeOcrText text) options).bestMonoScore.score
        · rw [hres, matchDecision_of_mono _ hbs (by omega) hmo1]
          have hin := hm3 hmo1
          refine ⟨Or.inl hin, ?_, ?_, fun h0 => absurd h0 hn, ?_⟩
          · intro hmode
            exact absurd hmode (by simp)
          · intro hnot
            constructor
            · intro hskill
              exact absurd (hskill ▸ hin) hnot
            · intro hmode
              exact absurd hmode (by simp)
          · intro hopts
            exfalso
            rw [hopts] at hmo1
            have : (matchFold (normalizeOcrText text) []).bestMonoScore.score = 0 := rfl
            omega
        · rw [hres, matchDecision_of_none _ hbs (by omega) (by omega)]
          exact ⟨Or.inr rfl, fun _ => ⟨rfl, rfl, rfl⟩,
            fun _ => ⟨fun _ => rfl, fun _ => rfl⟩, fun _ => rfl, fun _ => rfl⟩

/-- C10 witness: with a vocabulary not containing the sentinel, the sentinel
is returned exactly when no tier matched. -/
theorem c10_skill_membership_witness :
    (matchSkillFromTextDetailed "zq".data ["ab".data]).skill = UNKNOWN_SKILL_LABEL ↔
      (matchSkillFromTextDetailed "zq".data ["ab".data]).mode = .none :=
  (c10_skill_membership "zq".data ["ab".data]).2.2.1 (by decide)

end Mhwu
